import Mathlib

/-!
# EBI image container: codec, pixel-buffer utilities and pixmap export

A shallow embedding of `src/ebi.hpp`.

* Unsigned machine integers (`u8`, `u16`, `u32`) are bounded naturals.
* The packed 25-byte `header` record is copied to and from the stream byte
  for byte; multi-byte fields are laid out least significant byte first
  (the layout of the little-endian hosts the library is built for).
* A stream is the list of bytes of the file; a path that cannot be opened is
  `none` (for reading) or `false` (for writing).
* A pixel buffer (`u8*`) is the list of bytes of the allocation it points to.
  An access outside the allocation is undefined behaviour and is modelled by
  the result `none`.
* `int` is 32-bit: every `int` operation of the source is followed by `wrap`,
  the reduction to the two's complement range.
* The pixmap written by `to_ppm` is the list of bytes inserted into the
  output stream; the warning it prints is a separate flag.
-/

namespace ebi

/-! ## Machine integers -/

abbrev u8 := Fin 256
abbrev u16 := Fin 65536
abbrev u32 := Fin 4294967296

def EBI_VERSION : u8 := 1
def EBI_ORIGIN_TOP_LEFT : u8 := 0
def EBI_ORIGIN_BOTTOM_LEFT : u8 := 1
def EBI_FORMAT_RGB : u8 := 0
def EBI_FORMAT_ARGB : u8 := 1
def EBI_FORMAT_RGBA : u8 := 2

/-- Byte `k` (0 is the least significant) of a natural number. -/
def byte_of (n k : Nat) : u8 := ⟨(n / 256 ^ k) % 256, Nat.mod_lt _ (by decide)⟩

/-- The 16-bit value stored in two consecutive bytes. -/
def u16_of (b0 b1 : u8) : u16 := ⟨b0.val + 256 * b1.val, by omega⟩

/-- The 32-bit value stored in four consecutive bytes. -/
def u32_of (b0 b1 b2 b3 : u8) : u32 :=
  ⟨b0.val + 256 * b1.val + 65536 * b2.val + 16777216 * b3.val, by omega⟩

/-! ## Data model -/

/-- The packed header record (`sizeof(header) == 25`); `magic[4]` and
`reserved[8]` are spelled out element by element. -/
structure header where
  magic0 : u8
  magic1 : u8
  magic2 : u8
  magic3 : u8
  origin : u8
  width : u16
  height : u16
  channels : u8
  format : u8
  data_size : u32
  flags : u16
  reserved0 : u8
  reserved1 : u8
  reserved2 : u8
  reserved3 : u8
  reserved4 : u8
  reserved5 : u8
  reserved6 : u8
  reserved7 : u8
  deriving DecidableEq, Repr

/-- An image: the header and the allocation `data` points to. -/
structure file where
  header : header
  data : List u8
  deriving DecidableEq, Repr

inductive error where
  | ok
  | general
  | file_not_found
  deriving DecidableEq, Repr

/-- The numeric values of the enumerators. -/
def error.code : error → Int
  | .ok => 1
  | .general => -1
  | .file_not_found => -33

/-- The object representation of a header: what
`stream.write(reinterpret_cast<char*>(&hdr), sizeof(header))` emits. -/
def header_bytes (h : header) : List u8 :=
  [h.magic0, h.magic1, h.magic2, h.magic3,
   h.origin,
   byte_of h.width.val 0, byte_of h.width.val 1,
   byte_of h.height.val 0, byte_of h.height.val 1,
   h.channels,
   h.format,
   byte_of h.data_size.val 0, byte_of h.data_size.val 1,
   byte_of h.data_size.val 2, byte_of h.data_size.val 3,
   byte_of h.flags.val 0, byte_of h.flags.val 1,
   h.reserved0, h.reserved1, h.reserved2, h.reserved3,
   h.reserved4, h.reserved5, h.reserved6, h.reserved7]

/-- The header whose object representation is the first 25 bytes of `b`: what
`stream.read(reinterpret_cast<char*>(&hdr), sizeof(header))` stores when
25 bytes are available. -/
def header_of_bytes (b : List u8) : header :=
  { magic0 := b.getD 0 0
    magic1 := b.getD 1 0
    magic2 := b.getD 2 0
    magic3 := b.getD 3 0
    origin := b.getD 4 0
    width := u16_of (b.getD 5 0) (b.getD 6 0)
    height := u16_of (b.getD 7 0) (b.getD 8 0)
    channels := b.getD 9 0
    format := b.getD 10 0
    data_size := u32_of (b.getD 11 0) (b.getD 12 0) (b.getD 13 0) (b.getD 14 0)
    flags := u16_of (b.getD 15 0) (b.getD 16 0)
    reserved0 := b.getD 17 0
    reserved1 := b.getD 18 0
    reserved2 := b.getD 19 0
    reserved3 := b.getD 20 0
    reserved4 := b.getD 21 0
    reserved5 := b.getD 22 0
    reserved6 := b.getD 23 0
    reserved7 := b.getD 24 0 }

/-! ## Codec -/

/-- The header after lines 56-59 of `write`: the magic is stamped. -/
def stamp (hdr : header) : header :=
  { hdr with magic0 := 69, magic1 := 66, magic2 := 73, magic3 := EBI_VERSION }

/-- What a call of `write` leaves behind: the returned code, the caller's
image (`use` is passed by reference) and the content of the destination
(`none` when the stream was not opened). -/
structure write_result where
  code : error
  use : file
  out : Option (List u8)
  deriving DecidableEq, Repr

/-- Embedding of `write`. `can_open` tells whether the `ofstream` opens.
The result is `none` when the second `stream.write` would read past the end
of the buffer (undefined behaviour). -/
def write (can_open : Bool) (use : file) : Option write_result :=
  let hdr := stamp use.header
  let use1 : file := { use with header := hdr }
  if !can_open then
    some { code := error.file_not_found, use := use1, out := none }
  else if use.data.length < hdr.data_size.val then
    none
  else
    some { code := error.ok, use := use1,
           out := some (header_bytes hdr ++ use.data.take hdr.data_size.val) }

/-- Embedding of `read`. `src` is the content of the file, `none` when the
`ifstream` does not open; `result` is the caller's image before the call;
`fresh` is the content of the allocation returned by `new u8[data_size]`
before it is filled (its first `data_size` bytes are used). The pair
returned is the code and the caller's image after the call. -/
def read (src : Option (List u8)) (result : file) (fresh : List u8) : error × file :=
  match src with
  | none => (error.file_not_found, result)
  | some bytes =>
    if bytes.length < 25 then (error.general, result)
    else
      let hdr := header_of_bytes (bytes.take 25)
      if hdr.magic0 ≠ 69 ∨ hdr.magic1 ≠ 66 ∨ hdr.magic2 ≠ 73 ∨ hdr.magic3 ≠ EBI_VERSION then
        (error.general, result)
      else if hdr.data_size = 0 then (error.general, result)
      else
        let payload := (bytes.drop 25).take hdr.data_size.val
        if payload.length < hdr.data_size.val then
          (error.general,
            { header := hdr,
              data := payload ++ ((fresh.take hdr.data_size.val).drop payload.length) })
        else (error.ok, { header := hdr, data := payload })

/-! ## `int` arithmetic and buffer accesses -/

def INT_MAX : Int := 2147483647
def INT_MIN : Int := -2147483648

/-- The value an `int` holds after an operation whose exact result is `z`:
the representative of `z` modulo `2^32` in the two's complement range. -/
def wrap (z : Int) : Int := (z + 2147483648) % 4294967296 - 2147483648

/-- The assignment `data[i] = v`; `none` when `i` is outside the buffer. -/
def store (data : List u8) (i : Int) (v : u8) : Option (List u8) :=
  if 0 ≤ i ∧ i < data.length then some (data.set i.toNat v) else none

/-- The assignment `data[cur++] = v` on the pair of the buffer and `cur`. -/
def store_inc (s : List u8 × Int) (v : u8) : Option (List u8 × Int) :=
  (store s.1 s.2 v).map fun d => (d, wrap (s.2 + 1))

/-- The `n` bytes `memcpy` reads at `data + off`; `none` when they are not
all inside the buffer. -/
def load_bytes (data : List u8) (off n : Int) : Option (List u8) :=
  if 0 ≤ off ∧ 0 ≤ n ∧ off + n ≤ data.length then
    some ((data.drop off.toNat).take n.toNat)
  else none

/-- The buffer after `memcpy` has written `src` at `data + off`; `none` when
the bytes written are not all inside the buffer. -/
def store_bytes (data : List u8) (off : Int) (src : List u8) : Option (List u8) :=
  if 0 ≤ off ∧ off + src.length ≤ data.length then
    some (data.take off.toNat ++ src ++ data.drop (off.toNat + src.length))
  else none

/-! ## Pixel-buffer utilities -/

/-- Embedding of `set_pixel` (the default of `a` is passed explicitly). -/
def set_pixel (data : List u8) (width x y channels : Int) (r g b a : u8) :
    Option (List u8) :=
  let idx := wrap (wrap (wrap (y * width) + x) * channels)
  (store data (wrap (idx + 0)) r).bind fun d1 =>
  (store d1 (wrap (idx + 1)) g).bind fun d2 =>
  (store d2 (wrap (idx + 2)) b).bind fun d3 =>
  if channels = 4 then store d3 (wrap (idx + 3)) a else some d3

/-- The loop of `fill_color` for `channels == 3`, with `n` iterations left. -/
def fill_loop3 (r g b : u8) : Nat → List u8 × Int → Option (List u8 × Int)
  | 0, s => some s
  | n + 1, s =>
    (store_inc s r).bind fun s1 =>
    (store_inc s1 g).bind fun s2 =>
    (store_inc s2 b).bind fun s3 =>
    fill_loop3 r g b n s3

/-- The loop of `fill_color` for `channels == 4`, with `n` iterations left. -/
def fill_loop4 (r g b a : u8) : Nat → List u8 × Int → Option (List u8 × Int)
  | 0, s => some s
  | n + 1, s =>
    (store_inc s r).bind fun s1 =>
    (store_inc s1 g).bind fun s2 =>
    (store_inc s2 b).bind fun s3 =>
    (store_inc s3 a).bind fun s4 =>
    fill_loop4 r g b a n s4

/-- Embedding of `fill_color`. The loop `for (idx = 0; idx < width*height;
idx++)` runs `wrap (width * height)` times, and not at all when that is not
positive. -/
def fill_color (data : List u8) (width height channels : Int) (r g b a : u8) :
    Option (List u8) :=
  if channels = 3 then
    (fill_loop3 r g b (wrap (width * height)).toNat (data, 0)).map Prod.fst
  else if channels = 4 then
    (fill_loop4 r g b a (wrap (width * height)).toNat (data, 0)).map Prod.fst
  else some data

/-- The loop of `vertical_flip` with `k` iterations left, at row `y`. -/
def flip_loop (height row_size : Int) : Nat → Int → List u8 → Option (List u8)
  | 0, _, data => some data
  | k + 1, y, data =>
    let row_top := wrap (y * row_size)
    let row_bottom := wrap (wrap (wrap (height - 1) - y) * row_size)
    (load_bytes data row_top row_size).bind fun temp =>
    (load_bytes data row_bottom row_size).bind fun bottom =>
    (store_bytes data row_top bottom).bind fun d1 =>
    (store_bytes d1 row_bottom temp).bind fun d2 =>
    flip_loop height row_size k (wrap (y + 1)) d2

/-- Embedding of `vertical_flip`. `std::vector<unsigned char> temp(row_size)`
throws when `row_size` is negative (modelled by `none`); the loop
`for (y = 0; y < height / 2; y++)` runs `height / 2` times (`/` truncates). -/
def vertical_flip (data : List u8) (width height channels : Int) : Option (List u8) :=
  let row_size := wrap (width * channels)
  if row_size < 0 then none
  else flip_loop height row_size (Int.tdiv height 2).toNat 0 data

/-- The buffer after the three `memcpy` calls of one iteration of
`vertical_flip` that swap the `n` bytes at offset `p` with the `n` bytes at
offset `q` (a name for the value, used in the proofs). -/
def swap_rows (d : List u8) (p q n : Nat) : List u8 :=
  (d.take p ++ (d.drop q).take n ++ d.drop (p + n)).take q ++ (d.drop p).take n ++
    (d.take p ++ (d.drop q).take n ++ d.drop (p + n)).drop (q + n)

/-! ## Pixmap exporter -/

/-- The ASCII digit of `d % 10`. -/
def digit (d : Nat) : u8 := ⟨48 + d % 10, by omega⟩

/-- The characters `out << n` inserts for an `unsigned short`: the decimal
digits of `n`, most significant first, without leading zeros. -/
def decimal (n : u16) : List u8 :=
  if n.val < 10 then [digit n.val]
  else if n.val < 100 then [digit (n.val / 10), digit n.val]
  else if n.val < 1000 then [digit (n.val / 100), digit (n.val / 10), digit n.val]
  else if n.val < 10000 then
    [digit (n.val / 1000), digit (n.val / 100), digit (n.val / 10), digit n.val]
  else
    [digit (n.val / 10000), digit (n.val / 1000), digit (n.val / 100), digit (n.val / 10),
     digit n.val]

/-- The number a list of ASCII digits denotes (used to state what `decimal`
produces). -/
def decimal_value (ds : List u8) : Nat :=
  ds.foldl (fun acc d => 10 * acc + (d.val - 48)) 0

/-- The three header lines of `to_ppm` (lines 186-188): `"P6\n"`, the width,
a space, the height, `"\n"`, `"255\n"`. -/
def ppm_head (hdr : header) : List u8 :=
  [80, 54, 10] ++ decimal hdr.width ++ [32] ++ decimal hdr.height ++ [10] ++ [50, 53, 53, 10]

/-- The read `data[i]`; `none` when `i` is outside the buffer. -/
def load (data : List u8) (i : Int) : Option u8 :=
  if 0 ≤ i then data[i.toNat]? else none

/-- One of the three loops of `to_ppm`, with `n` iterations left, at pixel
`i`: `px = &data[i * c]`, then `px[first]`, `px[first + 1]`, `px[first + 2]`
are written. `first` is 0 in the RGB and RGBA loops and 1 in the ARGB loop,
which is the only difference between them. The result is the bytes
written. -/
def ppm_loop (data : List u8) (c first : Int) : Nat → Int → Option (List u8)
  | 0, _ => some []
  | n + 1, i =>
    let px := wrap (i * c)
    (load data (px + first)).bind fun r =>
    (load data (px + first + 1)).bind fun g =>
    (load data (px + first + 2)).bind fun b =>
    (ppm_loop data c first n (wrap (i + 1))).map fun rest => r :: g :: b :: rest

/-- Whether `to_ppm` prints its warning on the diagnostic channel (line 181). -/
def to_ppm_warns (img : file) : Bool := decide (3 < img.header.channels.val)

/-- Embedding of `to_ppm`: the bytes inserted into `out`, in order (the
content of the file when the stream opens; the source does not test it).
Each loop `for (i = 0; i < w * h; i++)` runs `wrap (w * h)` times, and not at
all when that is not positive. The result is `none` when a read is outside
the buffer (undefined behaviour). -/
def to_ppm (img : file) : Option (List u8) :=
  let w : Int := img.header.width.val
  let h : Int := img.header.height.val
  let c : Int := img.header.channels.val
  if img.header.format = EBI_FORMAT_RGB ∧ c ≥ 3 then
    (ppm_loop img.data c 0 (wrap (w * h)).toNat 0).map fun px => ppm_head img.header ++ px
  else if img.header.format = EBI_FORMAT_RGBA ∧ c = 4 then
    (ppm_loop img.data c 0 (wrap (w * h)).toNat 0).map fun px => ppm_head img.header ++ px
  else if img.header.format = EBI_FORMAT_ARGB ∧ c = 4 then
    (ppm_loop img.data c 1 (wrap (w * h)).toNat 0).map fun px => ppm_head img.header ++ px
  else some (ppm_head img.header)

/-! ## Example data -/

/-- The image of the running example of the specification: 2x1, RGBA. -/
def example_image : file :=
  { header :=
      { magic0 := 0, magic1 := 0, magic2 := 0, magic3 := 0,
        origin := EBI_ORIGIN_TOP_LEFT, width := 2, height := 1, channels := 4,
        format := EBI_FORMAT_RGBA, data_size := 8, flags := 0,
        reserved0 := 0, reserved1 := 0, reserved2 := 0, reserved3 := 0,
        reserved4 := 0, reserved5 := 0, reserved6 := 0, reserved7 := 0 },
    data := [10, 20, 30, 255, 40, 50, 60, 0] }

/-- An image that has not been filled in yet (the out-parameter of `read`). -/
def blank_image : file :=
  { header :=
      { magic0 := 0, magic1 := 0, magic2 := 0, magic3 := 0,
        origin := 0, width := 0, height := 0, channels := 0,
        format := 0, data_size := 0, flags := 0,
        reserved0 := 0, reserved1 := 0, reserved2 := 0, reserved3 := 0,
        reserved4 := 0, reserved5 := 0, reserved6 := 0, reserved7 := 0 },
    data := [] }

/-- An image with the given dimensions, channel count, format and buffer (the
other header fields are zero). -/
def image_of (w h : u16) (c f : u8) (ds : u32) (data : List u8) : file :=
  { header := { blank_image.header with
                  width := w, height := h, channels := c, format := f, data_size := ds },
    data := data }

/-- The file `write` produces for the example image: 33 bytes. -/
def example_file : List u8 :=
  header_bytes (stamp example_image.header) ++ example_image.data

/-! ## Codec lemmas -/

theorem header_bytes_length (h : header) : (header_bytes h).length = 25 := rfl

theorem u16_of_byte_of (w : u16) : u16_of (byte_of w.val 0) (byte_of w.val 1) = w := by
  apply Fin.ext
  have := w.isLt
  simp only [u16_of, byte_of]
  omega

theorem u32_of_byte_of (d : u32) :
    u32_of (byte_of d.val 0) (byte_of d.val 1) (byte_of d.val 2) (byte_of d.val 3) = d := by
  apply Fin.ext
  have := d.isLt
  simp only [u32_of, byte_of]
  omega

/-- Decoding the 25 bytes a header is stored as gives the header back. -/
theorem header_of_bytes_header_bytes (h : header) : header_of_bytes (header_bytes h) = h := by
  cases h
  simp [header_of_bytes, header_bytes, u16_of_byte_of, u32_of_byte_of]

theorem take_header_bytes_append (h : header) (rest : List u8) :
    (header_bytes h ++ rest).take 25 = header_bytes h :=
  List.take_left' (header_bytes_length h)

theorem drop_header_bytes_append (h : header) (rest : List u8) :
    (header_bytes h ++ rest).drop 25 = rest :=
  List.drop_left' (header_bytes_length h)

/-- The magic test of `read`, as a statement about the first four bytes. -/
theorem magic_test_iff (bytes : List u8) (hlen : 25 ≤ bytes.length) :
    ((header_of_bytes (bytes.take 25)).magic0 ≠ 69 ∨
      (header_of_bytes (bytes.take 25)).magic1 ≠ 66 ∨
      (header_of_bytes (bytes.take 25)).magic2 ≠ 73 ∨
      (header_of_bytes (bytes.take 25)).magic3 ≠ EBI_VERSION) ↔
    bytes.take 4 ≠ [69, 66, 73, 1] := by
  match bytes, hlen with
  | a :: b :: c :: d :: rest, _ =>
    simp only [header_of_bytes, EBI_VERSION, List.take_succ_cons, List.getD_cons_zero,
      List.getD_cons_succ, List.take_zero, ne_eq, List.cons.injEq, and_true, not_and]
    tauto

theorem payload_length (bytes : List u8) (n : Nat) (hlen : 25 ≤ bytes.length) :
    ((bytes.drop 25).take n).length < n ↔ bytes.length < 25 + n := by
  simp only [List.length_take, List.length_drop]
  omega

/-- The decision list `read` goes through on a file that opens. -/
theorem read_some (bytes : List u8) (result : file) (fresh : List u8) :
    read (some bytes) result fresh =
      if bytes.length < 25 then (error.general, result)
      else if bytes.take 4 ≠ [69, 66, 73, 1] then (error.general, result)
      else if (header_of_bytes (bytes.take 25)).data_size = 0 then (error.general, result)
      else if bytes.length < 25 + (header_of_bytes (bytes.take 25)).data_size.val then
        (error.general,
          { header := header_of_bytes (bytes.take 25),
            data := (bytes.drop 25).take (header_of_bytes (bytes.take 25)).data_size.val ++
              ((fresh.take (header_of_bytes (bytes.take 25)).data_size.val).drop
                ((bytes.drop 25).take (header_of_bytes (bytes.take 25)).data_size.val).length) })
      else
        (error.ok,
          { header := header_of_bytes (bytes.take 25),
            data := (bytes.drop 25).take (header_of_bytes (bytes.take 25)).data_size.val }) := by
  unfold read
  by_cases h25 : bytes.length < 25
  · simp [h25]
  · have hm := magic_test_iff bytes (by omega)
    simp only [h25, if_false]
    by_cases hmag : bytes.take 4 ≠ [69, 66, 73, 1]
    · rw [if_pos (hm.mpr hmag), if_pos hmag]
    · rw [if_neg (fun h => hmag (hm.mp h)), if_neg hmag]
      by_cases hz : (header_of_bytes (bytes.take 25)).data_size = 0
      · rw [if_pos hz, if_pos hz]
      · rw [if_neg hz, if_neg hz]
        by_cases hp : bytes.length < 25 + (header_of_bytes (bytes.take 25)).data_size.val
        · rw [if_pos ((payload_length bytes _ (by omega)).mpr hp), if_pos hp]
        · rw [if_neg (fun h => hp ((payload_length bytes _ (by omega)).mp h)), if_neg hp]

/-! ## Claims about the codec -/

/-- C1 (round trip). For every image whose header has a non-zero `data_size`
and whose buffer holds exactly `data_size` bytes, `write` to a destination
that opens returns `ok`, and `read` of the bytes written returns `ok` with
a header equal field for field to the image's header (the magic being the
one `write` stamps) and a buffer equal to the original buffer. The
consistency of width, height and channels with `data_size` is not needed. -/
theorem C1_round_trip (img result : file) (fresh : List u8)
    (hds : img.header.data_size ≠ 0)
    (hlen : img.data.length = img.header.data_size.val) :
    ∃ out : List u8,
      write true img =
        some { code := error.ok, use := { img with header := stamp img.header },
               out := some out } ∧
      (read (some out) result fresh).1 = error.ok ∧
      (read (some out) result fresh).2.data = img.data ∧
      (read (some out) result fresh).2.header = stamp img.header ∧
      (read (some out) result fresh).2.header.magic0 = 69 ∧
      (read (some out) result fresh).2.header.magic1 = 66 ∧
      (read (some out) result fresh).2.header.magic2 = 73 ∧
      (read (some out) result fresh).2.header.magic3 = EBI_VERSION ∧
      (read (some out) result fresh).2.header.origin = img.header.origin ∧
      (read (some out) result fresh).2.header.width = img.header.width ∧
      (read (some out) result fresh).2.header.height = img.header.height ∧
      (read (some out) result fresh).2.header.channels = img.header.channels ∧
      (read (some out) result fresh).2.header.format = img.header.format ∧
      (read (some out) result fresh).2.header.data_size = img.header.data_size ∧
      (read (some out) result fresh).2.header.flags = img.header.flags ∧
      (read (some out) result fresh).2.header.reserved0 = img.header.reserved0 ∧
      (read (some out) result fresh).2.header.reserved1 = img.header.reserved1 ∧
      (read (some out) result fresh).2.header.reserved2 = img.header.reserved2 ∧
      (read (some out) result fresh).2.header.reserved3 = img.header.reserved3 ∧
      (read (some out) result fresh).2.header.reserved4 = img.header.reserved4 ∧
      (read (some out) result fresh).2.header.reserved5 = img.header.reserved5 ∧
      (read (some out) result fresh).2.header.reserved6 = img.header.reserved6 ∧
      (read (some out) result fresh).2.header.reserved7 = img.header.reserved7 := by
  have hsz : (stamp img.header).data_size = img.header.data_size := rfl
  have hw : write true img =
      some { code := error.ok, use := { img with header := stamp img.header },
             out := some (header_bytes (stamp img.header) ++ img.data) } := by
    simp only [write, hsz, Bool.not_true, Bool.false_eq_true, if_false]
    rw [← hlen, List.take_length, if_neg (lt_irrefl _)]
  have hr : read (some (header_bytes (stamp img.header) ++ img.data)) result fresh =
      (error.ok, { header := stamp img.header, data := img.data }) := by
    rw [read_some]
    simp only [take_header_bytes_append, drop_header_bytes_append,
      header_of_bytes_header_bytes, hsz, List.length_append, header_bytes_length]
    have h4 : List.take 4 (header_bytes (stamp img.header) ++ img.data) = [69, 66, 73, 1] := rfl
    rw [if_neg (by omega), if_neg (by simp [h4]), if_neg hds, if_neg (by omega),
      ← hlen, List.take_length]
  refine ⟨header_bytes (stamp img.header) ++ img.data, hw, ?_⟩
  rw [hr]
  exact ⟨rfl, rfl, rfl, rfl, rfl, rfl, rfl, rfl, rfl, rfl, rfl, rfl, rfl, rfl, rfl, rfl, rfl,
    rfl, rfl, rfl, rfl, rfl⟩

/-- C1 at the example of the specification: the 2x1 RGBA image with pixel
bytes 10,20,30,255,40,50,60,0 is written and read back unchanged. -/
theorem C1_round_trip_witness :
    example_image.header.data_size ≠ 0 ∧
    example_image.data.length = example_image.header.data_size.val ∧
    (∃ out : List u8,
      write true example_image =
        some { code := error.ok,
               use := { example_image with header := stamp example_image.header },
               out := some out } ∧
      (read (some out) blank_image []).1 = error.ok ∧
      (read (some out) blank_image []).2.data = [10, 20, 30, 255, 40, 50, 60, 0]) :=
  ⟨by decide, by decide,
    (C1_round_trip example_image blank_image [] (by decide) (by decide)).imp
      fun _ h => ⟨h.1, h.2.1, h.2.2.1⟩⟩

/-- C2 (signature/version gate). A file that opens and whose first four
bytes are not 'E','B','I' followed by the version byte 1 makes `read` return
`general`, whatever the rest of the file is; this covers the files shorter
than four bytes. -/
theorem C2_signature_gate (bytes : List u8) (result : file) (fresh : List u8)
    (hmagic : bytes.take 4 ≠ [69, 66, 73, 1]) :
    (read (some bytes) result fresh).1 = error.general := by
  rw [read_some]
  split_ifs <;> rfl

/-- C2 at a file that differs from a valid one in the version byte only, and
at a file of three bytes. -/
theorem C2_signature_gate_witness :
    (read (some ([69, 66, 73, 2] ++ (header_bytes (stamp example_image.header)).drop 4 ++
      example_image.data)) blank_image []).1 = error.general ∧
    (read (some [69, 66, 73]) blank_image []).1 = error.general :=
  ⟨C2_signature_gate _ blank_image [] (by decide),
   C2_signature_gate [69, 66, 73] blank_image [] (by decide)⟩

/-- C3 (zero-payload rejection). A file that opens, has at least 25 bytes and
whose header decodes to `data_size == 0` makes `read` return `general`,
whatever the magic, the other fields and the bytes after the header are. -/
theorem C3_zero_payload (bytes : List u8) (result : file) (fresh : List u8)
    (_hlen : 25 ≤ bytes.length)
    (hzero : (header_of_bytes (bytes.take 25)).data_size = 0) :
    (read (some bytes) result fresh).1 = error.general := by
  rw [read_some]
  split_ifs <;> rfl

/-- C3 at a file with a correct magic, `data_size == 0` and three trailing
bytes. -/
theorem C3_zero_payload_witness :
    (read (some (header_bytes (stamp blank_image.header) ++ [1, 2, 3]))
      blank_image []).1 = error.general :=
  C3_zero_payload (header_bytes (stamp blank_image.header) ++ [1, 2, 3]) blank_image []
    (by decide) (by decide)

/-- What acceptance by `read` says about the file. -/
theorem read_ok_iff (bytes : List u8) (result : file) (fresh : List u8) :
    (read (some bytes) result fresh).1 = error.ok ↔
      25 ≤ bytes.length ∧ bytes.take 4 = [69, 66, 73, 1] ∧
      (header_of_bytes (bytes.take 25)).data_size ≠ 0 ∧
      25 + (header_of_bytes (bytes.take 25)).data_size.val ≤ bytes.length := by
  rw [read_some]
  split_ifs with h1 h2 h3 h4
  · simp; omega
  · simp only [reduceCtorEq, false_iff, not_and]
    intro _ h; exact absurd h h2
  · simp only [reduceCtorEq, false_iff, not_and]
    intro _ _ h; exact absurd h3 h
  · simp only [reduceCtorEq, false_iff, not_and, not_le]
    intro _ _ _; exact h4
  · simp only [true_iff]
    exact ⟨by omega, not_not.mp h2, h3, by omega⟩

/-- C4 (short-file rejection). If `read` accepts a file, then `read` of its
truncation to any length `n < 25 + data_size` (in particular to any `n < 25`,
and to 0) returns `general`. -/
theorem C4_short_file (F : List u8) (result : file) (fresh : List u8)
    (result2 : file) (fresh2 : List u8) (n : Nat)
    (hok : (read (some F) result fresh).1 = error.ok)
    (hn : n < 25 + (header_of_bytes (F.take 25)).data_size.val) :
    (read (some (F.take n)) result2 fresh2).1 = error.general := by
  obtain ⟨h25, hm, hz, hl⟩ := (read_ok_iff F result fresh).mp hok
  rw [read_some]
  by_cases hn25 : n < 25
  · rw [if_pos (by simp only [List.length_take]; omega)]
  · have ht : (F.take n).take 25 = F.take 25 := by
      rw [List.take_take, Nat.min_eq_left (by omega)]
    rw [if_neg (by simp only [List.length_take]; omega), ht]
    split_ifs
    · rfl
    · rfl
    · rename_i h
      exact absurd (show (F.take n).length < _ by simp only [List.length_take]; omega) h

/-- C4 at the example file, cut after 30 of its 33 bytes (inside the payload)
and after 10 bytes (inside the header). -/
theorem C4_short_file_witness :
    (read (some example_file) blank_image []).1 = error.ok ∧
    (read (some (example_file.take 30)) blank_image []).1 = error.general ∧
    (read (some (example_file.take 10)) blank_image []).1 = error.general :=
  ⟨by decide,
   C4_short_file example_file blank_image [] blank_image [] 30 (by decide) (by decide),
   C4_short_file example_file blank_image [] blank_image [] 10 (by decide) (by decide)⟩

/-- C5 (acceptance characterisation of `read`). `read` returns
`file_not_found` exactly when the source does not open; it returns `ok`
exactly when the source opens, has at least 25 bytes, starts with
'E','B','I',1, decodes to a non-zero `data_size` and has at least
`25 + data_size` bytes; when it returns `ok` the header returned is the
decoding of the first 25 bytes and the buffer returned is the `data_size`
bytes that follow them; in every other case it returns `general`. -/
theorem C5_read_characterisation (src : Option (List u8)) (result : file)
    (fresh : List u8) :
    ((read src result fresh).1 = error.file_not_found ↔ src = none) ∧
    ((read src result fresh).1 = error.ok ↔
      ∃ bytes, src = some bytes ∧ 25 ≤ bytes.length ∧ bytes.take 4 = [69, 66, 73, 1] ∧
        (header_of_bytes (bytes.take 25)).data_size ≠ 0 ∧
        25 + (header_of_bytes (bytes.take 25)).data_size.val ≤ bytes.length) ∧
    (∀ bytes, src = some bytes → (read src result fresh).1 = error.ok →
      (read src result fresh).2.header = header_of_bytes (bytes.take 25) ∧
      (read src result fresh).2.data =
        (bytes.drop 25).take (header_of_bytes (bytes.take 25)).data_size.val ∧
      (read src result fresh).2.data.length =
        (header_of_bytes (bytes.take 25)).data_size.val) ∧
    ((read src result fresh).1 = error.general ↔
      src ≠ none ∧
      ¬ ∃ bytes, src = some bytes ∧ 25 ≤ bytes.length ∧ bytes.take 4 = [69, 66, 73, 1] ∧
        (header_of_bytes (bytes.take 25)).data_size ≠ 0 ∧
        25 + (header_of_bytes (bytes.take 25)).data_size.val ≤ bytes.length) := by
  cases src with
  | none => simp [read]
  | some bytes =>
    have hiff := read_ok_iff bytes result fresh
    have hnf : (read (some bytes) result fresh).1 ≠ error.file_not_found := by
      rw [read_some]
      split_ifs <;> simp
    refine ⟨by simpa using hnf, by simpa using hiff, ?_, ?_⟩
    · intro b hb hok
      cases hb
      obtain ⟨h25, hm, hz, hl⟩ := hiff.mp hok
      rw [read_some, if_neg (by omega), if_neg (by simp [hm]), if_neg hz, if_neg (by omega)]
      refine ⟨rfl, rfl, ?_⟩
      simp only [List.length_take, List.length_drop]
      omega
    · simp only [ne_eq, reduceCtorEq, not_false_eq_true, Option.some.injEq, exists_eq_left',
        true_and]
      rw [← hiff]
      cases h : (read (some bytes) result fresh).1 with
      | ok => simp
      | general => simp
      | file_not_found => exact absurd h hnf

/-- C6 evaluated at a file with a valid header announcing 8 payload bytes and
holding only 3: `read` returns `general`, and the caller's image, blank before
the call, now carries the parsed header and the partially filled buffer. -/
theorem C6_partial_result_left_behind :
    read (some (header_bytes (stamp example_image.header) ++ [10, 20, 30]))
        blank_image [0, 0, 0, 0, 0, 0, 0, 0] =
      (error.general,
        { header := stamp example_image.header, data := [10, 20, 30, 0, 0, 0, 0, 0] }) ∧
    (read (some (header_bytes (stamp example_image.header) ++ [10, 20, 30]))
        blank_image [0, 0, 0, 0, 0, 0, 0, 0]).2 ≠ blank_image := by
  decide

/-- C7 (output layout of `write`). For every image whose buffer holds at
least `data_size` bytes, `write` to a destination that opens returns `ok` and
the bytes written are 'E','B','I',1, origin, width, height, channels, format,
`data_size`, flags and the 8 reserved bytes, in that order (25 bytes, the
multi-byte fields least significant byte first), followed by the first
`data_size` bytes of the buffer: `25 + data_size` bytes in all. When the
destination does not open, `write` returns `file_not_found` and writes
nothing. -/
theorem C7_write_layout (use : file)
    (hlen : use.header.data_size.val ≤ use.data.length) :
    (∃ out : List u8,
      write true use =
        some { code := error.ok, use := { use with header := stamp use.header },
               out := some out } ∧
      out =
        [69, 66, 73, 1,
         use.header.origin,
         byte_of use.header.width.val 0, byte_of use.header.width.val 1,
         byte_of use.header.height.val 0, byte_of use.header.height.val 1,
         use.header.channels,
         use.header.format,
         byte_of use.header.data_size.val 0, byte_of use.header.data_size.val 1,
         byte_of use.header.data_size.val 2, byte_of use.header.data_size.val 3,
         byte_of use.header.flags.val 0, byte_of use.header.flags.val 1,
         use.header.reserved0, use.header.reserved1, use.header.reserved2,
         use.header.reserved3, use.header.reserved4, use.header.reserved5,
         use.header.reserved6, use.header.reserved7] ++
        use.data.take use.header.data_size.val ∧
      out.length = 25 + use.header.data_size.val) ∧
    write false use =
      some { code := error.file_not_found, use := { use with header := stamp use.header },
             out := none } := by
  refine ⟨⟨_, ?_, rfl, ?_⟩, rfl⟩
  · have hsz : (stamp use.header).data_size = use.header.data_size := rfl
    simp only [write, hsz, Bool.not_true, Bool.false_eq_true, if_false]
    rw [if_neg (by omega)]
    rfl
  · simp only [List.length_append, List.length_take, List.length_cons, List.length_nil]
    omega

/-- C7 at the example image: the 33 bytes written. -/
theorem C7_write_layout_witness :
    (write true example_image).bind (fun w => w.out) =
      some [69, 66, 73, 1, 0, 2, 0, 1, 0, 4, 2, 8, 0, 0, 0, 0, 0,
            0, 0, 0, 0, 0, 0, 0, 0, 10, 20, 30, 255, 40, 50, 60, 0] ∧
    (write false example_image).map (fun w => w.code) = some error.file_not_found := by
  obtain ⟨⟨out, hw, hout, _⟩, hf⟩ := C7_write_layout example_image (by decide)
  rw [hw, hf, hout]
  decide

/-! ## `int` arithmetic lemmas -/

theorem wrap_of_range (z : Int) (hlo : INT_MIN ≤ z) (hhi : z ≤ INT_MAX) : wrap z = z := by
  unfold INT_MIN at hlo
  unfold INT_MAX at hhi
  unfold wrap
  omega

theorem wrap_add_mul (a q : Int) : wrap (a + 4294967296 * q) = wrap a := by
  unfold wrap
  omega

theorem wrap_eq (a : Int) : ∃ q : Int, wrap a = a + 4294967296 * q :=
  ⟨-((a + 2147483648) / 4294967296), by unfold wrap; omega⟩

theorem wrap_wrap_add (a b : Int) : wrap (wrap a + b) = wrap (a + b) := by
  obtain ⟨q, hq⟩ := wrap_eq a
  rw [hq, show a + 4294967296 * q + b = a + b + 4294967296 * q by ring, wrap_add_mul]

theorem wrap_wrap_sub (a b : Int) : wrap (wrap a - b) = wrap (a - b) := by
  obtain ⟨q, hq⟩ := wrap_eq a
  rw [hq, show a + 4294967296 * q - b = a - b + 4294967296 * q by ring, wrap_add_mul]

theorem wrap_wrap_mul (a b : Int) : wrap (wrap a * b) = wrap (a * b) := by
  obtain ⟨q, hq⟩ := wrap_eq a
  rw [hq, show (a + 4294967296 * q) * b = a * b + 4294967296 * (q * b) by ring, wrap_add_mul]

theorem wrap_sub_mul (a b c : Int) : wrap (wrap (wrap a - b) * c) = wrap ((a - b) * c) := by
  rw [wrap_wrap_mul]
  obtain ⟨q, hq⟩ := wrap_eq a
  rw [hq, show (a + 4294967296 * q - b) * c = (a - b) * c + 4294967296 * (q * c) by ring,
    wrap_add_mul]

theorem wrap_natCast (m : Nat) (h : m ≤ 2147483647) : wrap (m : Int) = (m : Int) := by
  unfold wrap
  omega

/-- The index computed by `set_pixel` is the exact offset reduced once. -/
theorem set_pixel_idx (width x y channels : Int) :
    wrap (wrap (wrap (y * width) + x) * channels) = wrap ((y * width + x) * channels) := by
  rw [wrap_wrap_mul]
  obtain ⟨q, hq⟩ := wrap_eq (y * width)
  rw [hq, show (y * width + 4294967296 * q + x) * channels =
    (y * width + x) * channels + 4294967296 * (q * channels) by ring, wrap_add_mul]

/-! ## Buffer access lemmas -/

theorem store_ok (data : List u8) (i : Nat) (v : u8) (hi : i < data.length) :
    store data (i : Int) v = some (data.set i v) := by
  unfold store
  rw [if_pos ⟨by omega, by omega⟩, Int.toNat_ofNat]

theorem store_neg (data : List u8) (i : Int) (v : u8) (hi : i < 0) :
    store data i v = none := by
  unfold store
  rw [if_neg (fun h => absurd h.1 (by omega))]

/-! ## `vertical_flip` -/

theorem load_bytes_neg (d : List u8) (off n : Int) (h : off < 0) :
    load_bytes d off n = none := by
  unfold load_bytes
  rw [if_neg (fun hc => absurd hc.1 (by omega))]

theorem load_bytes_ok (d : List u8) (off n : Nat) (h : off + n ≤ d.length) :
    load_bytes d (off : Int) (n : Int) = some ((d.drop off).take n) := by
  unfold load_bytes
  rw [if_pos ⟨by omega, by omega, by omega⟩, Int.toNat_ofNat, Int.toNat_ofNat]

theorem store_bytes_ok (d : List u8) (off : Nat) (src : List u8)
    (h : off + src.length ≤ d.length) :
    store_bytes d (off : Int) src =
      some (d.take off ++ src ++ d.drop (off + src.length)) := by
  unfold store_bytes
  rw [if_pos ⟨by omega, by omega⟩, Int.toNat_ofNat]

theorem swap_rows_length (d : List u8) (p q n : Nat) (hpq : p + n ≤ q)
    (hq : q + n ≤ d.length) : (swap_rows d p q n).length = d.length := by
  simp only [swap_rows, List.length_append, List.length_take, List.length_drop]
  omega

/-- Byte `i` of the buffer after a swap of two disjoint rows. -/
theorem swap_rows_getElem (d : List u8) (p q n : Nat) (hpq : p + n ≤ q)
    (hq : q + n ≤ d.length) (i : Nat) :
    (swap_rows d p q n)[i]? =
      if p ≤ i ∧ i < p + n then d[q + (i - p)]?
      else if q ≤ i ∧ i < q + n then d[p + (i - q)]?
      else d[i]? := by
  simp only [swap_rows, List.getElem?_append, List.getElem?_take, List.getElem?_drop,
    List.length_append, List.length_take, List.length_drop]
  split_ifs <;> first | rfl | (exfalso; omega) | (congr 1; omega)

/-- One iteration of the loop of `vertical_flip`, given the values of the two
row offsets and of the next row counter. -/
theorem flip_loop_iter (d : List u8) (h rs y y2 : Int) (k p q n : Nat)
    (hrs : rs = (n : Int)) (hp : wrap (y * rs) = (p : Int))
    (hq : wrap (wrap (wrap (h - 1) - y) * rs) = (q : Int)) (hy : wrap (y + 1) = y2)
    (hpq : p + n ≤ q) (hqn : q + n ≤ d.length) :
    flip_loop h rs (k + 1) y d = flip_loop h rs k y2 (swap_rows d p q n) := by
  have hl1 : ((d.drop q).take n).length = n := by
    simp only [List.length_take, List.length_drop]; omega
  have hl2 : ((d.drop p).take n).length = n := by
    simp only [List.length_take, List.length_drop]; omega
  rw [flip_loop, hp, hq, hy]
  subst hrs
  rw [load_bytes_ok _ _ _ (by omega), Option.some_bind, load_bytes_ok _ _ _ (by omega),
    Option.some_bind, store_bytes_ok _ _ _ (by rw [hl1]; omega), Option.some_bind, hl1,
    store_bytes_ok _ _ _ (by
      simp only [List.length_append, List.length_take, List.length_drop]; omega),
    Option.some_bind, hl2]
  rfl

/-- Offsets of row `j` of the upper half and of its mirror row `H - 1 - j`. -/
theorem row_bounds (H n j : Nat) (hj : 2 * j + 2 ≤ H) :
    j * n + n ≤ (H - 1 - j) * n ∧ (H - 1 - j) * n + n ≤ H * n ∧
    (H - 1 - j) * n ≤ (H - 1) * n ∧ j * n ≤ (H - 1) * n := by
  obtain ⟨m, rfl⟩ := Nat.exists_eq_add_of_le hj
  have e1 : 2 * j + 2 + m - 1 - j = j + 1 + m := by omega
  have e2 : 2 * j + 2 + m - 1 = j + (j + 1 + m) := by omega
  have e3 : 2 * j + 2 + m = j + 1 + (j + 1 + m) := by omega
  rw [e1, e2, e3]
  simp only [Nat.add_mul, Nat.one_mul]
  omega

theorem cast_mirror_row (H j : Nat) (hj : 2 * j + 2 ≤ H) :
    (H : Int) - 1 - (j : Int) = ((H - 1 - j : Nat) : Int) := by
  omega

/-- One iteration of the loop of `vertical_flip`, at a row `j` of the upper
half, when the row offsets are in the range of `int`. -/
theorem flip_loop_step (d : List u8) (H n j k : Nat) (hn : 0 < n) (hj : 2 * j + 2 ≤ H)
    (hlen : H * n ≤ d.length) (hmax : (H - 1) * n ≤ 2147483647) :
    flip_loop (H : Int) (n : Int) (k + 1) (j : Int) d =
      flip_loop (H : Int) (n : Int) k ((j + 1 : Nat) : Int)
        (swap_rows d (j * n) ((H - 1 - j) * n) n) := by
  obtain ⟨b1, b2, b3, b4⟩ := row_bounds H n j hj
  have h5 : H - 1 ≤ (H - 1) * n := Nat.le_mul_of_pos_right _ hn
  have hj1 : j + 1 ≤ 2147483647 := by
    have : j + 1 ≤ H - 1 := by omega
    exact le_trans this (le_trans h5 hmax)
  apply flip_loop_iter d (H : Int) (n : Int) (j : Int) _ k _ _ n rfl
  · rw [← Nat.cast_mul]
    exact wrap_natCast _ (le_trans b4 hmax)
  · rw [wrap_sub_mul, cast_mirror_row H j hj, ← Nat.cast_mul]
    exact wrap_natCast _ (le_trans b3 hmax)
  · have := wrap_natCast (j + 1) hj1
    rw [Nat.cast_add, Nat.cast_one] at this
    rw [this, Nat.cast_add, Nat.cast_one]
  · exact b1
  · exact le_trans b2 hlen

/-- With rows of no bytes the loop of `vertical_flip` leaves the buffer as
it is. -/
theorem flip_loop_zero (h : Int) (k : Nat) : ∀ (y : Int) (d : List u8),
    flip_loop h 0 k y d = some d := by
  induction k with
  | zero => intro y d; rfl
  | succ k ih =>
    intro y d
    have hw : wrap 0 = 0 := rfl
    have hl : load_bytes d 0 0 = some [] := by
      have := load_bytes_ok d 0 0 (Nat.zero_le _)
      simpa using this
    have hs : store_bytes d 0 [] = some d := by
      have := store_bytes_ok d 0 [] (Nat.zero_le _)
      simpa using this
    rw [flip_loop]
    simp only [mul_zero, hw, hl, hs, Option.some_bind]
    exact ih _ _

/-- Byte `y * n + c` with `c < n` lies in row `r` exactly when `y = r`. -/
theorem row_index_iff (n y c r : Nat) (hc : c < n) :
    (r * n ≤ y * n + c ∧ y * n + c < r * n + n) ↔ y = r := by
  constructor
  · rintro ⟨h1, h2⟩
    by_contra hne
    rcases Nat.lt_or_gt_of_ne hne with hlt | hgt
    · have h3 : (y + 1) * n ≤ r * n := Nat.mul_le_mul_right n hlt
      rw [Nat.succ_mul] at h3
      omega
    · have h3 : (r + 1) * n ≤ y * n := Nat.mul_le_mul_right n hgt
      rw [Nat.succ_mul] at h3
      omega
  · rintro rfl
    omega

/-- The loop of `vertical_flip`: started at row `j` on a buffer in which the
first `j` rows and the last `j` rows of `B` are already exchanged, it ends
with a buffer in which every row `y` is row `H - 1 - y` of `B`; the bytes
after the `H` rows are those of `B`. -/
theorem flip_loop_rows (B : List u8) (H n : Nat) (hn : 0 < n) (hlen : H * n ≤ B.length)
    (hmax : (H - 1) * n ≤ 2147483647) (k : Nat) :
    ∀ (j : Nat) (d : List u8), j + k = H / 2 → d.length = B.length →
      (∀ y c : Nat, y < H → c < n →
        d[y * n + c]? = B[(if y < j ∨ H - j ≤ y then H - 1 - y else y) * n + c]?) →
      (∀ i : Nat, H * n ≤ i → d[i]? = B[i]?) →
      ∃ d2 : List u8, flip_loop (H : Int) (n : Int) k (j : Int) d = some d2 ∧
        d2.length = B.length ∧
        (∀ y c : Nat, y < H → c < n → d2[y * n + c]? = B[(H - 1 - y) * n + c]?) ∧
        (∀ i : Nat, H * n ≤ i → d2[i]? = B[i]?) := by
  induction k with
  | zero =>
    intro j d hjk hl hrows htail
    refine ⟨d, rfl, hl, fun y c hy hc => ?_, htail⟩
    rw [hrows y c hy hc]
    by_cases hcond : y < j ∨ H - j ≤ y
    · rw [if_pos hcond]
    · rw [if_neg hcond]
      have : H - 1 - y = y := by omega
      rw [this]
  | succ k ih =>
    intro j d hjk hl hrows htail
    have hj : 2 * j + 2 ≤ H := by omega
    obtain ⟨b1, b2, _, _⟩ := row_bounds H n j hj
    have hq : (H - 1 - j) * n + n ≤ d.length := by rw [hl]; exact le_trans b2 hlen
    rw [flip_loop_step d H n j k hn hj (by rw [hl]; exact hlen) hmax]
    apply ih (j + 1) _ (by omega)
    · rw [swap_rows_length d _ _ n b1 hq, hl]
    · intro y c hy hc
      rw [swap_rows_getElem d _ _ n b1 hq]
      by_cases h1 : y = j
      · subst h1
        rw [if_pos ((row_index_iff n y c y hc).mpr rfl), if_pos (Or.inl (by omega)),
          show (H - 1 - y) * n + (y * n + c - y * n) = (H - 1 - y) * n + c by omega,
          hrows (H - 1 - y) c (by omega) hc, if_neg (by omega)]
      · rw [if_neg (fun h => h1 ((row_index_iff n y c j hc).mp h))]
        by_cases h2 : y = H - 1 - j
        · subst h2
          rw [if_pos ((row_index_iff n _ c _ hc).mpr rfl), if_pos (Or.inr (by omega)),
            show j * n + ((H - 1 - j) * n + c - (H - 1 - j) * n) = j * n + c by omega,
            hrows j c (by omega) hc, if_neg (by omega),
            show H - 1 - (H - 1 - j) = j by omega]
        · rw [if_neg (fun h => h2 ((row_index_iff n y c _ hc).mp h)), hrows y c hy hc]
          by_cases h3 : y < j ∨ H - j ≤ y
          · rw [if_pos h3, if_pos (by omega)]
          · rw [if_neg h3, if_neg (by omega)]
    · intro i hi
      rw [swap_rows_getElem d _ _ n b1 hq, if_neg (by omega), if_neg (by omega), htail i hi]

/-- What `vertical_flip` returns when the row size and the offset of the last
row are in the range of `int`: row `y` of the result is row `H - 1 - y` of the
buffer, and the bytes after the `H` rows are unchanged. -/
theorem vertical_flip_rows (B : List u8) (W H C : Nat) (hlen : W * H * C ≤ B.length)
    (hrow : W * C ≤ 2147483647) (hoff : (H - 1) * (W * C) ≤ 2147483647) :
    ∃ d : List u8, vertical_flip B (W : Int) (H : Int) (C : Int) = some d ∧
      d.length = B.length ∧
      (∀ y c : Nat, y < H → c < W * C →
        d[y * (W * C) + c]? = B[(H - 1 - y) * (W * C) + c]?) ∧
      (∀ i : Nat, H * (W * C) ≤ i → d[i]? = B[i]?) := by
  have hlen2 : H * (W * C) ≤ B.length := by
    rw [show H * (W * C) = W * H * C by ring]
    exact hlen
  have hrs : wrap ((W : Int) * (C : Int)) = ((W * C : Nat) : Int) := by
    rw [← Nat.cast_mul]
    exact wrap_natCast _ hrow
  have hk : (Int.tdiv (H : Int) 2).toNat = H / 2 := rfl
  have hrun : vertical_flip B (W : Int) (H : Int) (C : Int) =
      flip_loop (H : Int) ((W * C : Nat) : Int) (H / 2) ((0 : Nat) : Int) B := by
    simp only [vertical_flip, hrs, hk]
    rw [if_neg (by omega)]
    rfl
  rw [hrun]
  generalize W * C = n at hlen2 hoff ⊢
  rcases Nat.eq_zero_or_pos n with h0 | hn
  · subst h0
    refine ⟨B, flip_loop_zero _ _ _ _, rfl, fun y c _ hc => absurd hc (by omega),
      fun _ _ => rfl⟩
  · apply flip_loop_rows B H n hn hlen2 hoff (H / 2) 0 B (by omega) rfl
    · intro y c hy _
      rw [if_neg (by omega)]
    · intro _ _
      rfl

/-- C8 (flip involution), amended. For every buffer `B` and every
`width >= 0`, `height >= 0`, `channels >= 0` with `width*height*channels` at
most the length of `B`, and with the row size `width*channels` and the offset
of the last row `(height-1)*width*channels` at most `INT_MAX`,
`vertical_flip` applied twice returns `B`. -/
theorem C8_flip_involution (B : List u8) (width height channels : Int)
    (hw : 0 ≤ width) (hh : 0 ≤ height) (hc : 0 ≤ channels)
    (hlen : width * height * channels ≤ B.length)
    (hrow : width * channels ≤ INT_MAX)
    (hoff : (height - 1) * (width * channels) ≤ INT_MAX) :
    (vertical_flip B width height channels).bind
      (fun d => vertical_flip d width height channels) = some B := by
  lift width to ℕ using hw with W
  lift height to ℕ using hh with H
  lift channels to ℕ using hc with C
  have hlenN : W * H * C ≤ B.length := by exact_mod_cast hlen
  have hrowN : W * C ≤ 2147483647 := by
    have h : ((W * C : Nat) : Int) ≤ 2147483647 := by
      rw [Nat.cast_mul]
      exact hrow
    exact_mod_cast h
  have hoffN : (H - 1) * (W * C) ≤ 2147483647 := by
    rcases Nat.eq_zero_or_pos H with h0 | hpos
    · subst h0
      simp
    · have h : (((H - 1) * (W * C) : Nat) : Int) ≤ 2147483647 := by
        rw [Nat.cast_mul, Nat.cast_mul, Nat.cast_sub hpos, Nat.cast_one]
        exact hoff
      exact_mod_cast h
  obtain ⟨d1, hrun1, hl1, hrows1, htail1⟩ := vertical_flip_rows B W H C hlenN hrowN hoffN
  obtain ⟨d2, hrun2, hl2, hrows2, htail2⟩ :=
    vertical_flip_rows d1 W H C (by rw [hl1]; exact hlenN) hrowN hoffN
  rw [hrun1, Option.some_bind, hrun2]
  apply congrArg some
  apply List.ext_getElem?
  intro i
  by_cases hi : i < H * (W * C)
  · have hn : 0 < W * C := by
      rcases Nat.eq_zero_or_pos (W * C) with h0 | hn
      · rw [h0] at hi
        exact absurd hi (by omega)
      · exact hn
    have hy : i / (W * C) < H := (Nat.div_lt_iff_lt_mul hn).mpr hi
    have hcol : i % (W * C) < W * C := Nat.mod_lt _ hn
    have hsplit : i / (W * C) * (W * C) + i % (W * C) = i := Nat.div_add_mod' i (W * C)
    generalize i / (W * C) = y at hy hsplit
    generalize i % (W * C) = c at hcol hsplit
    have hy2 : H - 1 - y < H := by omega
    have hy3 : H - 1 - (H - 1 - y) = y := by omega
    rw [← hsplit, hrows2 y c hy hcol, hrows1 _ c hy2 hcol, hy3]
  · have hi2 : H * (W * C) ≤ i := Nat.le_of_not_lt hi
    rw [htail2 i hi2, htail1 i hi2]

/-- C8 on a buffer of three rows of four bytes and one byte more. -/
theorem C8_flip_involution_witness :
    (vertical_flip [1, 2, 3, 4, 5, 6, 7, 8, 9, 10, 11, 12, 13] 2 3 2).bind
      (fun d => vertical_flip d 2 3 2) = some [1, 2, 3, 4, 5, 6, 7, 8, 9, 10, 11, 12, 13] :=
  C8_flip_involution [1, 2, 3, 4, 5, 6, 7, 8, 9, 10, 11, 12, 13] 2 3 2
    (by decide) (by decide) (by decide) (by decide) (by decide) (by decide)

/-- C8 as stated fails in two ways. On the empty buffer with
`width = INT_MAX`, `height = 0`, `channels = 2` the `int` row size is `-2` and
the temporary row cannot be allocated. On a buffer of `65535 * 65535` bytes
with `width = height = 65535`, `channels = 1` the `int` offset of the last
row is negative and the first `memcpy` from it is outside the buffer. -/
theorem C8_counterexample :
    ((0 : Int) ≤ 2147483647 ∧ (0 : Int) ≤ 0 ∧ (0 : Int) ≤ 2 ∧
      (2147483647 * 0 * 2 : Int) ≤ (([] : List u8).length : Int) ∧
      (vertical_flip [] 2147483647 0 2).bind (fun d => vertical_flip d 2147483647 0 2) ≠
        some []) ∧
    ((0 : Int) ≤ 65535 ∧ (0 : Int) ≤ 1 ∧
      (65535 * 65535 * 1 : Int) ≤ ((List.replicate 4294836225 (0 : u8)).length : Int) ∧
      (vertical_flip (List.replicate 4294836225 0) 65535 65535 1).bind
        (fun d => vertical_flip d 65535 65535 1) ≠ some (List.replicate 4294836225 0)) := by
  refine ⟨⟨by decide, by decide, by decide, by decide, by decide⟩,
    by decide, by decide, by rw [List.length_replicate]; decide, ?_⟩
  have hrs : ¬ (wrap (65535 * 1) < 0) := by decide
  have hk : (Int.tdiv 65535 2).toNat = 32766 + 1 := by decide
  have htop : wrap (0 * wrap (65535 * 1)) = ((0 : Nat) : Int) := by decide
  have hn : wrap (65535 * 1) = ((65535 : Nat) : Int) := by decide
  have hbot : wrap (wrap (wrap (65535 - 1) - 0) * ((65535 : Nat) : Int)) < 0 := by decide
  have hrun : vertical_flip (List.replicate 4294836225 0) 65535 65535 1 = none := by
    simp only [vertical_flip]
    rw [if_neg hrs, hk, flip_loop, htop, hn,
      load_bytes_ok _ 0 65535 (by rw [List.length_replicate]; decide), Option.some_bind,
      load_bytes_neg _ _ _ hbot]
    rfl
  rw [hrun]
  exact fun h => Option.noConfusion h

/-! ## `fill_color` -/

theorem store_inc_ok (d : List u8) (c : Nat) (v : u8) (hc : c < d.length)
    (hmax : (c : Int) + 1 ≤ INT_MAX) :
    store_inc (d, (c : Int)) v = some (d.set c v, ((c + 1 : Nat) : Int)) := by
  have hw : wrap ((c : Int) + 1) = ((c + 1 : Nat) : Int) := by
    unfold INT_MAX at hmax
    unfold wrap
    push_cast
    omega
  simp only [store_inc, store_ok d c v hc, Option.map_some', hw]

/-- The three-channel loop: `n` iterations starting at `cur = c` succeed when
the `3 * n` bytes from `c` on are inside the buffer and below `INT_MAX`;
they write the colour to each of the `n` pixels and nothing else. -/
theorem fill_loop3_spec (r g b : u8) (n : Nat) :
    ∀ (d : List u8) (c : Nat), c + 3 * n ≤ d.length → (c : Int) + 3 * n ≤ INT_MAX →
      ∃ d2 : List u8,
        fill_loop3 r g b n (d, (c : Int)) = some (d2, ((c + 3 * n : Nat) : Int)) ∧
        d2.length = d.length ∧
        (∀ i : Nat, i < n →
          d2[c + 3 * i]? = some r ∧ d2[c + 3 * i + 1]? = some g ∧
          d2[c + 3 * i + 2]? = some b) ∧
        (∀ j : Nat, j < c ∨ c + 3 * n ≤ j → d2[j]? = d[j]?) := by
  induction n with
  | zero =>
    intro d c _ _
    exact ⟨d, rfl, rfl, fun i hi => absurd hi (by omega), fun _ _ => rfl⟩
  | succ n ih =>
    intro d c hlen hmax
    have hmax2 : (c : Int) + 3 * ((n + 1 : Nat) : Int) ≤ 2147483647 := hmax
    push_cast at hmax2
    have hI : ∀ m : Int, m ≤ 2147483647 → m ≤ INT_MAX := fun m h => h
    obtain ⟨d2, hrun, hl, hpix, hrest⟩ :=
      ih (((d.set c r).set (c + 1) g).set (c + 2) b) (c + 3)
        (by simp only [List.length_set]; omega) (hI _ (by push_cast; omega))
    refine ⟨d2, ?_, ?_, ?_, ?_⟩
    · simp only [fill_loop3]
      rw [store_inc_ok _ _ _ (by omega) (hI _ (by omega)), Option.some_bind,
        store_inc_ok _ _ _ (by simp only [List.length_set]; omega)
          (hI _ (by push_cast; omega)), Option.some_bind,
        store_inc_ok _ _ _ (by simp only [List.length_set]; omega)
          (hI _ (by push_cast; omega)), Option.some_bind, hrun,
        show c + 3 + 3 * n = c + 3 * (n + 1) by omega]
    · simpa only [List.length_set] using hl
    · intro i hi
      cases i with
      | zero =>
        simp only [Nat.mul_zero, Nat.add_zero]
        rw [hrest c (by omega), hrest (c + 1) (by omega), hrest (c + 2) (by omega)]
        simp only [List.getElem?_set, List.length_set]
        refine ⟨?_, ?_, ?_⟩ <;> split_ifs <;> first | rfl | (exfalso; omega)
      | succ i =>
        have h := hpix i (by omega)
        rw [show c + 3 + 3 * i = c + 3 * (i + 1) by omega] at h
        exact h
    · intro j hj
      rw [hrest j (by omega)]
      simp only [List.getElem?_set, List.length_set]
      split_ifs <;> first | rfl | (exfalso; omega)

/-- The four-channel loop, as `fill_loop3_spec`. -/
theorem fill_loop4_spec (r g b a : u8) (n : Nat) :
    ∀ (d : List u8) (c : Nat), c + 4 * n ≤ d.length → (c : Int) + 4 * n ≤ INT_MAX →
      ∃ d2 : List u8,
        fill_loop4 r g b a n (d, (c : Int)) = some (d2, ((c + 4 * n : Nat) : Int)) ∧
        d2.length = d.length ∧
        (∀ i : Nat, i < n →
          d2[c + 4 * i]? = some r ∧ d2[c + 4 * i + 1]? = some g ∧
          d2[c + 4 * i + 2]? = some b ∧ d2[c + 4 * i + 3]? = some a) ∧
        (∀ j : Nat, j < c ∨ c + 4 * n ≤ j → d2[j]? = d[j]?) := by
  induction n with
  | zero =>
    intro d c _ _
    exact ⟨d, rfl, rfl, fun i hi => absurd hi (by omega), fun _ _ => rfl⟩
  | succ n ih =>
    intro d c hlen hmax
    have hmax2 : (c : Int) + 4 * ((n + 1 : Nat) : Int) ≤ 2147483647 := hmax
    push_cast at hmax2
    have hI : ∀ m : Int, m ≤ 2147483647 → m ≤ INT_MAX := fun m h => h
    obtain ⟨d2, hrun, hl, hpix, hrest⟩ :=
      ih ((((d.set c r).set (c + 1) g).set (c + 2) b).set (c + 3) a) (c + 4)
        (by simp only [List.length_set]; omega) (hI _ (by push_cast; omega))
    refine ⟨d2, ?_, ?_, ?_, ?_⟩
    · simp only [fill_loop4]
      rw [store_inc_ok _ _ _ (by omega) (hI _ (by omega)), Option.some_bind,
        store_inc_ok _ _ _ (by simp only [List.length_set]; omega)
          (hI _ (by push_cast; omega)), Option.some_bind,
        store_inc_ok _ _ _ (by simp only [List.length_set]; omega)
          (hI _ (by push_cast; omega)), Option.some_bind,
        store_inc_ok _ _ _ (by simp only [List.length_set]; omega)
          (hI _ (by push_cast; omega)), Option.some_bind, hrun,
        show c + 4 + 4 * n = c + 4 * (n + 1) by omega]
    · simpa only [List.length_set] using hl
    · intro i hi
      cases i with
      | zero =>
        simp only [Nat.mul_zero, Nat.add_zero]
        rw [hrest c (by omega), hrest (c + 1) (by omega), hrest (c + 2) (by omega),
          hrest (c + 3) (by omega)]
        simp only [List.getElem?_set, List.length_set]
        refine ⟨?_, ?_, ?_, ?_⟩ <;> split_ifs <;> first | rfl | (exfalso; omega)
      | succ i =>
        have h := hpix i (by omega)
        rw [show c + 4 + 4 * i = c + 4 * (i + 1) by omega] at h
        exact h
    · intro j hj
      rw [hrest j (by omega)]
      simp only [List.getElem?_set, List.length_set]
      split_ifs <;> first | rfl | (exfalso; omega)

/-- C9 (fill correctness), amended. Let the product `w*h` be at least
`INT_MIN`. For every buffer of at least `w*h*3` bytes with `w*h*3` at most
`INT_MAX`, `fill_color` with 3 channels returns a buffer of the same length in
which the three bytes of every pixel `i` in `[0, w*h)` are `(r, g, b)`; for
every buffer of at least `w*h*4` bytes with `w*h*4` at most `INT_MAX`,
`fill_color` with 4 channels returns a buffer of the same length in which the
four bytes of every pixel are `(r, g, b, a)`. -/
theorem C9_fill_correct (data : List u8) (w h : Int) (r g b a : u8)
    (hmin : INT_MIN ≤ w * h) :
    (w * h * 3 ≤ data.length → w * h * 3 ≤ INT_MAX →
      ∃ d : List u8, fill_color data w h 3 r g b a = some d ∧ d.length = data.length ∧
        ∀ i : Nat, (i : Int) < w * h →
          d[3 * i]? = some r ∧ d[3 * i + 1]? = some g ∧ d[3 * i + 2]? = some b) ∧
    (w * h * 4 ≤ data.length → w * h * 4 ≤ INT_MAX →
      ∃ d : List u8, fill_color data w h 4 r g b a = some d ∧ d.length = data.length ∧
        ∀ i : Nat, (i : Int) < w * h →
          d[4 * i]? = some r ∧ d[4 * i + 1]? = some g ∧ d[4 * i + 2]? = some b ∧
          d[4 * i + 3]? = some a) := by
  have hf3 : fill_color data w h 3 r g b a =
      (fill_loop3 r g b (wrap (w * h)).toNat (data, 0)).map Prod.fst := by
    simp only [fill_color, if_true]
  have hf4 : fill_color data w h 4 r g b a =
      (fill_loop4 r g b a (wrap (w * h)).toNat (data, 0)).map Prod.fst := by
    have h43 : ¬ ((4 : Int) = 3) := by decide
    simp only [fill_color, if_true, if_neg h43]
  rw [hf3, hf4]
  generalize w * h = p at hmin ⊢
  have hmin2 : -2147483648 ≤ p := hmin
  constructor
  · intro hlen hmax
    have hmax2 : p * 3 ≤ 2147483647 := hmax
    have hw : wrap p = p := wrap_of_range p hmin (show p ≤ 2147483647 by omega)
    obtain ⟨d, hrun, hl, hpix, _⟩ := fill_loop3_spec r g b p.toNat data 0 (by omega)
      (show ((0 : Nat) : Int) + 3 * (p.toNat : Int) ≤ 2147483647 by omega)
    refine ⟨d, ?_, hl, fun i hi => ?_⟩
    · rw [hw, show ((data, (0 : Int)) : List u8 × Int) = (data, ((0 : Nat) : Int)) from rfl,
        hrun]
      rfl
    · have := hpix i (by omega)
      simpa only [Nat.zero_add] using this
  · intro hlen hmax
    have hmax2 : p * 4 ≤ 2147483647 := hmax
    have hw : wrap p = p := wrap_of_range p hmin (show p ≤ 2147483647 by omega)
    obtain ⟨d, hrun, hl, hpix, _⟩ := fill_loop4_spec r g b a p.toNat data 0 (by omega)
      (show ((0 : Nat) : Int) + 4 * (p.toNat : Int) ≤ 2147483647 by omega)
    refine ⟨d, ?_, hl, fun i hi => ?_⟩
    · rw [hw, show ((data, (0 : Int)) : List u8 × Int) = (data, ((0 : Nat) : Int)) from rfl,
        hrun]
      rfl
    · have := hpix i (by omega)
      simpa only [Nat.zero_add] using this

/-- C9 on the buffer of the 2x1 image: filled with 4 channels, and its first
two pixels filled with 3 channels. -/
theorem C9_fill_correct_witness :
    (∃ d : List u8, fill_color [0, 0, 0, 0, 0, 0, 0, 0] 2 1 3 1 2 3 9 = some d ∧
      d.length = 8 ∧
      ∀ i : Nat, (i : Int) < 2 * 1 →
        d[3 * i]? = some 1 ∧ d[3 * i + 1]? = some 2 ∧ d[3 * i + 2]? = some 3) ∧
    (∃ d : List u8, fill_color [0, 0, 0, 0, 0, 0, 0, 0] 2 1 4 1 2 3 9 = some d ∧
      d.length = 8 ∧
      ∀ i : Nat, (i : Int) < 2 * 1 →
        d[4 * i]? = some 1 ∧ d[4 * i + 1]? = some 2 ∧ d[4 * i + 2]? = some 3 ∧
        d[4 * i + 3]? = some 9) :=
  ⟨(C9_fill_correct [0, 0, 0, 0, 0, 0, 0, 0] 2 1 1 2 3 9 (by decide)).1
      (by decide) (by decide),
   (C9_fill_correct [0, 0, 0, 0, 0, 0, 0, 0] 2 1 1 2 3 9 (by decide)).2
      (by decide) (by decide)⟩

/-- C9 as stated fails in two ways. On a buffer of `3 * 2^31` zero bytes with
`w = 65536`, `h = 32768` the `int` product `w*h` is `-2^31`, the loop does not
run and pixel 0 is not filled. On the empty buffer with `w = -3`,
`h = 715827883` the exact product is negative, so the buffer is large
enough, but the `int` product is `2^31 - 1` and the first store is outside
the buffer. -/
theorem C9_counterexample :
    ((65536 * 32768 * 3 : Int) ≤ ((List.replicate 6442450944 (0 : u8)).length : Int) ∧
      ¬ ∃ d : List u8,
        fill_color (List.replicate 6442450944 0) 65536 32768 3 1 2 3 255 = some d ∧
        ∀ i : Nat, (i : Int) < 65536 * 32768 →
          d[3 * i]? = some 1 ∧ d[3 * i + 1]? = some 2 ∧ d[3 * i + 2]? = some 3) ∧
    ((-3 * 715827883 * 3 : Int) ≤ (([] : List u8).length : Int) ∧
      fill_color [] (-3) 715827883 3 1 2 3 255 = none) := by
  refine ⟨⟨by rw [List.length_replicate]; decide, ?_⟩, by decide, by decide⟩
  rintro ⟨d, hd, hpix⟩
  have hrun : fill_color (List.replicate 6442450944 0) 65536 32768 3 1 2 3 255 =
      some (List.replicate 6442450944 0) := rfl
  rw [hrun] at hd
  have h0 := (hpix 0 (by decide)).1
  rw [← Option.some.inj hd, List.getElem?_replicate] at h0
  revert h0
  decide

/-! ## `set_pixel` -/

/-- The buffer `set_pixel` returns when the offsets it uses are inside the
buffer and in the range of `int`. -/
theorem set_pixel_eq (data : List u8) (width x y channels : Int) (r g b a : u8) (o : Nat)
    (ho : (y * width + x) * channels = (o : Int))
    (hin : o + 2 < data.length) (hin4 : channels = 4 → o + 3 < data.length)
    (hmax : (o : Int) + 2 ≤ INT_MAX) (hmax4 : channels = 4 → (o : Int) + 3 ≤ INT_MAX) :
    set_pixel data width x y channels r g b a =
      some (if channels = 4 then
              (((data.set o r).set (o + 1) g).set (o + 2) b).set (o + 3) a
            else ((data.set o r).set (o + 1) g).set (o + 2) b) := by
  have hmax2 : (o : Int) + 2 ≤ 2147483647 := hmax
  have e0 : wrap (wrap (o : Int) + 0) = (o : Int) := by unfold wrap; omega
  have e1 : wrap (wrap (o : Int) + 1) = ((o + 1 : Nat) : Int) := by
    unfold wrap; push_cast; omega
  have e2 : wrap (wrap (o : Int) + 2) = ((o + 2 : Nat) : Int) := by
    unfold wrap; push_cast; omega
  unfold set_pixel
  simp only [set_pixel_idx, ho, e0, e1, e2]
  rw [store_ok _ _ _ (by omega), Option.some_bind,
    store_ok _ _ _ (by rw [List.length_set]; omega), Option.some_bind,
    store_ok _ _ _ (by simp only [List.length_set]; omega), Option.some_bind]
  by_cases hc : channels = 4
  · have hmax3 : (o : Int) + 3 ≤ 2147483647 := hmax4 hc
    have e3 : wrap (wrap (o : Int) + 3) = ((o + 3 : Nat) : Int) := by
      unfold wrap; push_cast; omega
    have := hin4 hc
    rw [if_pos hc, if_pos hc, e3, store_ok _ _ _ (by simp only [List.length_set]; omega)]
  · rw [if_neg hc, if_neg hc]

/-- C10 (postcondition of `set_pixel`), amended. Let `o = (y*width +
x)*channels` be non-negative, with `o + 2` (`o + 3` when `channels == 4`)
inside the buffer and at most `INT_MAX`. Then `set_pixel` returns a buffer of
the same length whose bytes at `o`, `o+1`, `o+2` are `r`, `g`, `b`, whose
byte at `o+3` is `a` when `channels == 4`, and whose other bytes are
unchanged; when `channels != 4` the buffer returned does not depend on the
alpha argument. -/
theorem C10_set_pixel_post (data : List u8) (width x y channels : Int) (r g b a : u8)
    (o : Nat)
    (ho : (y * width + x) * channels = (o : Int))
    (hin : o + 2 < data.length) (hin4 : channels = 4 → o + 3 < data.length)
    (hmax : (o : Int) + 2 ≤ INT_MAX) (hmax4 : channels = 4 → (o : Int) + 3 ≤ INT_MAX) :
    ∃ d : List u8,
      set_pixel data width x y channels r g b a = some d ∧
      d.length = data.length ∧
      d[o]? = some r ∧ d[o + 1]? = some g ∧ d[o + 2]? = some b ∧
      (channels = 4 → d[o + 3]? = some a) ∧
      (∀ i : Nat, i ≠ o → i ≠ o + 1 → i ≠ o + 2 → (channels = 4 → i ≠ o + 3) →
        d[i]? = data[i]?) ∧
      (channels ≠ 4 → ∀ a2 : u8, set_pixel data width x y channels r g b a2 = some d) := by
  refine ⟨_, set_pixel_eq data width x y channels r g b a o ho hin hin4 hmax hmax4, ?_⟩
  by_cases hc : channels = 4
  · have := hin4 hc
    simp only [if_pos hc, List.length_set, List.getElem?_set, true_and]
    refine ⟨?_, ?_, ?_, ?_, ?_, fun h => absurd hc h⟩
    · split_ifs <;> first | rfl | (exfalso; omega)
    · split_ifs <;> first | rfl | (exfalso; omega)
    · split_ifs <;> first | rfl | (exfalso; omega)
    · intro _
      split_ifs <;> rfl
    · intro i h0 h1 h2 h3
      have h3 := h3 hc
      split_ifs <;> first | rfl | (exfalso; omega)
  · simp only [if_neg hc, List.length_set, List.getElem?_set, true_and]
    refine ⟨?_, ?_, ?_, fun h => absurd h hc, ?_, fun _ a2 => ?_⟩
    · split_ifs <;> first | rfl | (exfalso; omega)
    · split_ifs <;> first | rfl | (exfalso; omega)
    · split_ifs <;> rfl
    · intro i h0 h1 h2 _
      split_ifs <;> first | rfl | (exfalso; omega)
    · have h := set_pixel_eq data width x y channels r g b a2 o ho hin hin4 hmax hmax4
      rw [if_neg hc] at h
      exact h

/-- C10 at pixel (1, 0) of a 2x1 buffer with 4 channels and with 3 channels. -/
theorem C10_set_pixel_post_witness :
    set_pixel [0, 0, 0, 0, 0, 0, 0, 0] 2 1 0 4 1 2 3 9 = some [0, 0, 0, 0, 1, 2, 3, 9] ∧
    (∃ d : List u8,
      set_pixel [0, 0, 0, 0, 0, 0, 0, 0] 2 1 0 3 1 2 3 9 = some d ∧
      d[3]? = some 1 ∧ d[4]? = some 2 ∧ d[5]? = some 3 ∧ d[6]? = some 0) := by
  refine ⟨by decide, ?_⟩
  obtain ⟨d, hd, _, h0, h1, h2, _, hrest, _⟩ :=
    C10_set_pixel_post [0, 0, 0, 0, 0, 0, 0, 0] 2 1 0 3 1 2 3 9 3
      (by decide) (by decide) (by decide) (by decide) (by decide)
  exact ⟨d, hd, h0, h1, h2, by
    rw [hrest 6 (by decide) (by decide) (by decide) (by decide)]; rfl⟩

/-- C10 as stated fails on a buffer of more than `2^31` bytes: with
`width = 0`, `x = 2^30`, `y = 0`, `channels = 2` the offset is `2^31`, which is
inside the buffer together with the two bytes after it, but the `int`
holding it is `-2^31` and `set_pixel` has no defined result. -/
theorem C10_counterexample :
    ((0 * 0 + 1073741824) * 2 : Int) = ((2147483648 : Nat) : Int) ∧
    2147483648 + 2 < (List.replicate 2147483651 (0 : u8)).length ∧
    set_pixel (List.replicate 2147483651 0) 0 1073741824 0 2 1 2 3 255 = none := by
  refine ⟨by decide, by rw [List.length_replicate]; decide, ?_⟩
  simp only [set_pixel]
  rw [store_neg _ _ _ (by decide)]
  rfl

/-! ## `to_ppm` -/

theorem load_ok (data : List u8) (i : Int) (m : Nat) (h : i = (m : Int)) :
    load data i = data[m]? := by
  subst h
  unfold load
  rw [if_pos (by omega), Int.toNat_ofNat]

theorem load_neg (data : List u8) (i : Int) (h : i < 0) : load data i = none := by
  unfold load
  rw [if_neg (by omega)]

/-- Offsets of pixel `i` among `N` pixels of `c` bytes, the first of the three
bytes read being byte `first` of the pixel. -/
theorem pixel_bounds (N c first i : Nat) (hi : i < N) (hf : first + 3 ≤ c) :
    i * c ≤ (N - 1) * c ∧ i * c + first + 2 < N * c ∧ i * 3 ≤ i * c := by
  obtain ⟨m, rfl⟩ := Nat.exists_eq_add_of_lt hi
  have e1 : i + m + 1 - 1 = i + m := by omega
  have h3 : i * 3 ≤ i * c := Nat.mul_le_mul_left i (by omega)
  rw [e1]
  simp only [Nat.add_mul, Nat.one_mul]
  omega

theorem digit_val (d : Nat) : (digit d).val = 48 + d % 10 := rfl

/-- The digits `decimal` produces denote the number printed. -/
theorem decimal_value_decimal (n : u16) : decimal_value (decimal n) = n.val := by
  have hn := n.isLt
  unfold decimal
  split_ifs <;> simp only [decimal_value, List.foldl_cons, List.foldl_nil, digit_val] <;> omega

/-- One iteration of a loop of `to_ppm` whose three reads are at the offsets
`m + first`, `m + first + 1`, `m + first + 2` inside the buffer. -/
theorem ppm_loop_iter (data : List u8) (c first i i2 : Int) (n m f : Nat)
    (hpx : wrap (i * c) = (m : Int)) (hfirst : first = (f : Int)) (hnext : wrap (i + 1) = i2)
    (hin : m + f + 2 < data.length) :
    ∃ r g b : u8, data[m + f]? = some r ∧ data[m + f + 1]? = some g ∧
      data[m + f + 2]? = some b ∧
      ppm_loop data c first (n + 1) i =
        (ppm_loop data c first n i2).map fun rest => r :: g :: b :: rest := by
  have h0 : data[m + f]? = some (data.get ⟨m + f, by omega⟩) :=
    List.getElem?_eq_getElem (by omega)
  have h1 : data[m + f + 1]? = some (data.get ⟨m + f + 1, by omega⟩) :=
    List.getElem?_eq_getElem (by omega)
  have h2 : data[m + f + 2]? = some (data.get ⟨m + f + 2, hin⟩) :=
    List.getElem?_eq_getElem hin
  refine ⟨_, _, _, h0, h1, h2, ?_⟩
  subst hfirst
  rw [ppm_loop, hpx, hnext,
    load_ok data _ (m + f) (by push_cast; rfl), h0, Option.some_bind,
    load_ok data _ (m + f + 1) (by push_cast; rfl), h1, Option.some_bind,
    load_ok data _ (m + f + 2) (by push_cast; rfl), h2, Option.some_bind]

/-- A loop of `to_ppm` over the pixels `i0 .. N - 1` of a buffer that holds
`N` pixels of `c` bytes, when the offset of the last pixel is in the range
of `int`: it writes three bytes for each pixel, the bytes `first`,
`first + 1`, `first + 2` of the pixel. -/
theorem ppm_loop_spec (data : List u8) (c first N : Nat) (hf : first + 3 ≤ c)
    (hlen : N * c ≤ data.length) (hmax : (N - 1) * c ≤ 2147483647) (n : Nat) :
    ∀ i0 : Nat, i0 + n = N →
      ∃ p : List u8,
        ppm_loop data (c : Int) (first : Int) n (i0 : Int) = some p ∧
        p.length = 3 * n ∧
        ∀ j : Nat, j < n →
          p[3 * j]? = data[(i0 + j) * c + first]? ∧
          p[3 * j + 1]? = data[(i0 + j) * c + first + 1]? ∧
          p[3 * j + 2]? = data[(i0 + j) * c + first + 2]? := by
  induction n with
  | zero =>
    intro i0 _
    exact ⟨[], rfl, rfl, fun j hj => absurd hj (by omega)⟩
  | succ n ih =>
    intro i0 hN
    obtain ⟨b1, b2, b3⟩ := pixel_bounds N c first i0 (by omega) hf
    have hpx : wrap ((i0 : Int) * (c : Int)) = ((i0 * c : Nat) : Int) := by
      rw [← Nat.cast_mul]
      exact wrap_natCast _ (le_trans b1 hmax)
    have hi0 : i0 + 1 ≤ 2147483647 := by
      have : i0 * 3 ≤ 2147483647 := le_trans b3 (le_trans b1 hmax)
      omega
    have hnext : wrap ((i0 : Int) + 1) = ((i0 + 1 : Nat) : Int) := by
      have := wrap_natCast (i0 + 1) hi0
      rw [Nat.cast_add, Nat.cast_one] at this
      rw [this, Nat.cast_add, Nat.cast_one]
    obtain ⟨r, g, b, h0, h1, h2, hrun⟩ :=
      ppm_loop_iter data (c : Int) (first : Int) (i0 : Int) _ n (i0 * c) first hpx rfl hnext
        (lt_of_lt_of_le b2 hlen)
    obtain ⟨p, hp, hl, hpix⟩ := ih (i0 + 1) (by omega)
    refine ⟨r :: g :: b :: p, ?_, ?_, ?_⟩
    · rw [hrun, hp]
      rfl
    · simp only [List.length_cons, hl]
      omega
    · intro j hj
      cases j with
      | zero =>
        simp only [Nat.mul_zero, Nat.add_zero, Nat.zero_add, List.getElem?_cons_zero,
          List.getElem?_cons_succ]
        exact ⟨h0.symm, h1.symm, h2.symm⟩
      | succ j =>
        have e0 : 3 * (j + 1) = 3 * j + 1 + 1 + 1 := by omega
        have e2 : 3 * j + 1 + 1 + 1 + 2 = 3 * j + 2 + 1 + 1 + 1 := by omega
        have e3 : i0 + (j + 1) = i0 + 1 + j := by omega
        rw [e0, e2, e3]
        have q := hpix j (Nat.lt_of_succ_lt_succ hj)
        refine ⟨?_, ?_, ?_⟩
        · rw [List.getElem?_cons_succ, List.getElem?_cons_succ, List.getElem?_cons_succ]
          exact q.1
        · rw [List.getElem?_cons_succ, List.getElem?_cons_succ, List.getElem?_cons_succ]
          exact q.2.1
        · rw [List.getElem?_cons_succ, List.getElem?_cons_succ, List.getElem?_cons_succ]
          exact q.2.2

/-- The branch `to_ppm` takes on a matching format and channel count. -/
theorem to_ppm_of_loop (img : file) (first : Int)
    (hbranch :
      (img.header.format = EBI_FORMAT_RGB ∧ 3 ≤ img.header.channels.val ∧ first = 0) ∨
      (img.header.format = EBI_FORMAT_RGBA ∧ img.header.channels.val = 4 ∧ first = 0) ∨
      (img.header.format = EBI_FORMAT_ARGB ∧ img.header.channels.val = 4 ∧ first = 1)) :
    to_ppm img =
      (ppm_loop img.data (img.header.channels.val : Int) first
        (wrap ((img.header.width.val : Int) * (img.header.height.val : Int))).toNat 0).map
        fun px => ppm_head img.header ++ px := by
  have hrgba : EBI_FORMAT_RGBA ≠ EBI_FORMAT_RGB := by decide
  have hargb : EBI_FORMAT_ARGB ≠ EBI_FORMAT_RGB := by decide
  have hargb2 : EBI_FORMAT_ARGB ≠ EBI_FORMAT_RGBA := by decide
  unfold to_ppm
  rcases hbranch with ⟨hf, hc, h1⟩ | ⟨hf, hc, h1⟩ | ⟨hf, hc, h1⟩
  · subst h1
    have hc2 : ((img.header.channels.val : Nat) : Int) ≥ 3 := by omega
    simp only [hf, hc2, and_self, if_true]
  · subst h1
    have hc2 : ((img.header.channels.val : Nat) : Int) = 4 := by omega
    simp only [hf, hrgba, hc2, false_and, and_self, if_true, if_false]
  · subst h1
    have hc2 : ((img.header.channels.val : Nat) : Int) = 4 := by omega
    simp only [hf, hargb, hargb2, hc2, false_and, and_self, if_true, if_false]

/-- The branch `to_ppm` takes when the format and the channel count match
none of the three loops: only the header lines are written. -/
theorem to_ppm_unmatched (img : file)
    (h1 : ¬ (img.header.format = EBI_FORMAT_RGB ∧ 3 ≤ img.header.channels.val))
    (h2 : ¬ (img.header.format = EBI_FORMAT_RGBA ∧ img.header.channels.val = 4))
    (h3 : ¬ (img.header.format = EBI_FORMAT_ARGB ∧ img.header.channels.val = 4)) :
    to_ppm img = some (ppm_head img.header) := by
  have g1 : ¬ (img.header.format = EBI_FORMAT_RGB ∧
      ((img.header.channels.val : Nat) : Int) ≥ 3) := fun h => h1 ⟨h.1, by omega⟩
  have g2 : ¬ (img.header.format = EBI_FORMAT_RGBA ∧
      ((img.header.channels.val : Nat) : Int) = 4) := fun h => h2 ⟨h.1, by omega⟩
  have g3 : ¬ (img.header.format = EBI_FORMAT_ARGB ∧
      ((img.header.channels.val : Nat) : Int) = 4) := fun h => h3 ⟨h.1, by omega⟩
  unfold to_ppm
  simp only [if_neg g1, if_neg g2, if_neg g3]

/-- What `to_ppm` writes on a matching format and channel count, when the
buffer holds `width * height` pixels and the offset of the last pixel is in
the range of `int`: the header lines and, for each pixel, its bytes
`first`, `first + 1`, `first + 2`. -/
theorem to_ppm_spec (img : file) (first : Nat)
    (hbranch :
      (img.header.format = EBI_FORMAT_RGB ∧ 3 ≤ img.header.channels.val ∧ first = 0) ∨
      (img.header.format = EBI_FORMAT_RGBA ∧ img.header.channels.val = 4 ∧ first = 0) ∨
      (img.header.format = EBI_FORMAT_ARGB ∧ img.header.channels.val = 4 ∧ first = 1))
    (hlen : img.header.width.val * img.header.height.val * img.header.channels.val ≤
      img.data.length)
    (hmax : (img.header.width.val * img.header.height.val - 1) * img.header.channels.val ≤
      2147483647) :
    ∃ p : List u8,
      to_ppm img = some (ppm_head img.header ++ p) ∧
      p.length = 3 * (img.header.width.val * img.header.height.val) ∧
      ∀ i : Nat, i < img.header.width.val * img.header.height.val →
        p[3 * i]? = img.data[i * img.header.channels.val + first]? ∧
        p[3 * i + 1]? = img.data[i * img.header.channels.val + first + 1]? ∧
        p[3 * i + 2]? = img.data[i * img.header.channels.val + first + 2]? := by
  have hb2 : (img.header.format = EBI_FORMAT_RGB ∧ 3 ≤ img.header.channels.val ∧
        ((first : Nat) : Int) = 0) ∨
      (img.header.format = EBI_FORMAT_RGBA ∧ img.header.channels.val = 4 ∧
        ((first : Nat) : Int) = 0) ∨
      (img.header.format = EBI_FORMAT_ARGB ∧ img.header.channels.val = 4 ∧
        ((first : Nat) : Int) = 1) := by
    rcases hbranch with ⟨a, b, c⟩ | ⟨a, b, c⟩ | ⟨a, b, c⟩
    · exact Or.inl ⟨a, b, by omega⟩
    · exact Or.inr (Or.inl ⟨a, b, by omega⟩)
    · exact Or.inr (Or.inr ⟨a, b, by omega⟩)
  have hf : first + 3 ≤ img.header.channels.val := by
    rcases hbranch with ⟨_, b, c⟩ | ⟨_, b, c⟩ | ⟨_, b, c⟩ <;> omega
  rw [to_ppm_of_loop img first hb2]
  generalize img.header.channels.val = c at hlen hmax hf ⊢
  rw [← Nat.cast_mul]
  generalize img.header.width.val * img.header.height.val = N at hlen hmax ⊢
  have hN : N ≤ 2147483647 := by
    have h3 : (N - 1) * 3 ≤ (N - 1) * c := Nat.mul_le_mul_left _ (by omega)
    omega
  rw [wrap_natCast N hN, Int.toNat_ofNat]
  obtain ⟨p, hp, hl, hpix⟩ := ppm_loop_spec img.data c first N hf hlen hmax N 0 (by omega)
  refine ⟨p, ?_, hl, fun i hi => ?_⟩
  · rw [show ((0 : Int)) = ((0 : Nat) : Int) from rfl, hp]
    rfl
  · have := hpix i hi
    rw [Nat.zero_add] at this
    exact this

theorem bind_none_right (o : Option u8) (f : u8 → Option (List u8)) (hf : ∀ v, f v = none) :
    o.bind f = none := by
  cases o with
  | none => rfl
  | some v => exact hf v

/-- A loop of `to_ppm` has no defined result when the `int` offset of one of
its pixels is negative. -/
theorem ppm_loop_none (data : List u8) (c first : Int) (n : Nat) :
    ∀ i0 j : Nat, j < n → i0 + n ≤ 2147483647 →
      wrap (((i0 + j : Nat) : Int) * c) + first < 0 →
      ppm_loop data c first n (i0 : Int) = none := by
  induction n with
  | zero => intro i0 j hj; exact absurd hj (by omega)
  | succ n ih =>
    intro i0 j hj hmax hneg
    rw [ppm_loop]
    cases j with
    | zero =>
      rw [Nat.add_zero] at hneg
      rw [load_neg data _ hneg]
      rfl
    | succ j =>
      have hnext : wrap ((i0 : Int) + 1) = ((i0 + 1 : Nat) : Int) := by
        have := wrap_natCast (i0 + 1) (by omega)
        rw [Nat.cast_add, Nat.cast_one] at this
        rw [this, Nat.cast_add, Nat.cast_one]
      have hrec : ppm_loop data c first n ((i0 + 1 : Nat) : Int) = none :=
        ih (i0 + 1) j (by omega) (by omega)
          (by rw [show i0 + 1 + j = i0 + (j + 1) by omega]; exact hneg)
      rw [hnext, hrec]
      exact bind_none_right _ _ fun _ =>
        bind_none_right _ _ fun _ => bind_none_right _ _ fun _ => rfl

/-- The pixmap export has no defined result when, on a matching format and
channel count, the `int` offset of some pixel is negative. -/
theorem to_ppm_overflow_none (img : file) (first : Int) (j : Nat)
    (hbranch :
      (img.header.format = EBI_FORMAT_RGB ∧ 3 ≤ img.header.channels.val ∧ first = 0) ∨
      (img.header.format = EBI_FORMAT_RGBA ∧ img.header.channels.val = 4 ∧ first = 0) ∨
      (img.header.format = EBI_FORMAT_ARGB ∧ img.header.channels.val = 4 ∧ first = 1))
    (hj : j < (wrap ((img.header.width.val : Int) * (img.header.height.val : Int))).toNat)
    (hn : (wrap ((img.header.width.val : Int) * (img.header.height.val : Int))).toNat ≤
      2147483647)
    (hneg : wrap (((j : Nat) : Int) * (img.header.channels.val : Int)) + first < 0) :
    to_ppm img = none := by
  rw [to_ppm_of_loop img first hbranch]
  have h := ppm_loop_none img.data (img.header.channels.val : Int) first _ 0 j hj
    (by omega) (by rw [Nat.zero_add]; exact hneg)
  rw [show ((0 : Int)) = ((0 : Nat) : Int) from rfl, h]
  rfl

/-- C11 (pixmap byte count), amended. For every image whose format and
channel count are RGB with at least 3 channels, RGBA with 4 or ARGB with 4,
whose buffer holds at least `width*height*channels` bytes and for which the
offset `(width*height - 1)*channels` of the last pixel is at most `INT_MAX`,
`to_ppm` writes the three header lines followed by exactly `width*height*3`
payload bytes. -/
theorem C11_pixmap_byte_count (img : file)
    (hmatch :
      (img.header.format = EBI_FORMAT_RGB ∧ 3 ≤ img.header.channels.val) ∨
      (img.header.format = EBI_FORMAT_RGBA ∧ img.header.channels.val = 4) ∨
      (img.header.format = EBI_FORMAT_ARGB ∧ img.header.channels.val = 4))
    (hlen : img.header.width.val * img.header.height.val * img.header.channels.val ≤
      img.data.length)
    (hmax : (img.header.width.val * img.header.height.val - 1) * img.header.channels.val ≤
      2147483647) :
    ∃ p : List u8,
      to_ppm img = some (ppm_head img.header ++ p) ∧
      p.length = img.header.width.val * img.header.height.val * 3 := by
  rcases hmatch with ⟨hf, hc⟩ | ⟨hf, hc⟩ | ⟨hf, hc⟩
  · obtain ⟨p, hp, hl, _⟩ := to_ppm_spec img 0 (Or.inl ⟨hf, hc, rfl⟩) hlen hmax
    exact ⟨p, hp, by rw [hl, Nat.mul_comm]⟩
  · obtain ⟨p, hp, hl, _⟩ := to_ppm_spec img 0 (Or.inr (Or.inl ⟨hf, hc, rfl⟩)) hlen hmax
    exact ⟨p, hp, by rw [hl, Nat.mul_comm]⟩
  · obtain ⟨p, hp, hl, _⟩ := to_ppm_spec img 1 (Or.inr (Or.inr ⟨hf, hc, rfl⟩)) hlen hmax
    exact ⟨p, hp, by rw [hl, Nat.mul_comm]⟩

/-- C11 at the example image: 2 * 1 * 3 payload bytes. -/
theorem C11_pixmap_byte_count_witness :
    ∃ p : List u8,
      to_ppm example_image = some (ppm_head example_image.header ++ p) ∧ p.length = 6 :=
  C11_pixmap_byte_count example_image (by decide) (by decide) (by decide)

/-- C11 as stated fails in three ways. A 1x1 RGB image with 2 channels gets
no payload byte instead of 3. On a 32768x16385 RGBA image (a buffer of
`2^31 + 131072` bytes) the `int` offset of pixel `2^29` is `-2^31`, and on a
2x1 RGBA image whose buffer holds one pixel the second pixel is read outside
the buffer: in both cases the export has no defined result. -/
theorem C11_counterexample :
    ((image_of 1 1 2 EBI_FORMAT_RGB 2 [1, 2]).header.format = EBI_FORMAT_RGB ∧
      ¬ ∃ p : List u8,
        to_ppm (image_of 1 1 2 EBI_FORMAT_RGB 2 [1, 2]) =
          some (ppm_head (image_of 1 1 2 EBI_FORMAT_RGB 2 [1, 2]).header ++ p) ∧
        p.length = 1 * 1 * 3) ∧
    (32768 * 16385 * 4 ≤ (List.replicate 2147614720 (0 : u8)).length ∧
      to_ppm (image_of 32768 16385 4 EBI_FORMAT_RGBA 2147614720
        (List.replicate 2147614720 0)) = none) ∧
    to_ppm (image_of 2 1 4 EBI_FORMAT_RGBA 4 [10, 20, 30, 255]) = none := by
  refine ⟨⟨by decide, ?_⟩, ⟨by rw [List.length_replicate], ?_⟩, by decide⟩
  · rintro ⟨p, hp, hl⟩
    have hrun : to_ppm (image_of 1 1 2 EBI_FORMAT_RGB 2 [1, 2]) =
        some (ppm_head (image_of 1 1 2 EBI_FORMAT_RGB 2 [1, 2]).header) := by decide
    rw [hrun] at hp
    have hnil : p = [] := List.self_eq_append_right.mp (Option.some.inj hp)
    rw [hnil] at hl
    exact absurd hl (by decide)
  · exact to_ppm_overflow_none _ 0 536870912 (Or.inr (Or.inl ⟨by decide, by decide, rfl⟩))
      (by decide) (by decide) (by decide)

/-- C12 (channel selection), amended. For every image whose buffer holds at
least `width*height*channels` bytes and for which the offset
`(width*height - 1)*channels` of the last pixel is at most `INT_MAX`, and
every pixel `i` in `[0, width*height)`: the `i`-th triplet of the payload
written by `to_ppm` is buffer bytes `i*c+1, i*c+2, i*c+3` when the format is
ARGB with `c == 4`, and buffer bytes `i*c, i*c+1, i*c+2` when the format is
RGBA with `c == 4` or RGB with `c >= 3`; the pixels are in stored order. -/
theorem C12_channel_selection (img : file)
    (hlen : img.header.width.val * img.header.height.val * img.header.channels.val ≤
      img.data.length)
    (hmax : (img.header.width.val * img.header.height.val - 1) * img.header.channels.val ≤
      2147483647) :
    (img.header.format = EBI_FORMAT_ARGB ∧ img.header.channels.val = 4 →
      ∃ p : List u8, to_ppm img = some (ppm_head img.header ++ p) ∧
        p.length = 3 * (img.header.width.val * img.header.height.val) ∧
        ∀ i : Nat, i < img.header.width.val * img.header.height.val →
          p[3 * i]? = img.data[i * img.header.channels.val + 1]? ∧
          p[3 * i + 1]? = img.data[i * img.header.channels.val + 2]? ∧
          p[3 * i + 2]? = img.data[i * img.header.channels.val + 3]?) ∧
    ((img.header.format = EBI_FORMAT_RGBA ∧ img.header.channels.val = 4) ∨
      (img.header.format = EBI_FORMAT_RGB ∧ 3 ≤ img.header.channels.val) →
      ∃ p : List u8, to_ppm img = some (ppm_head img.header ++ p) ∧
        p.length = 3 * (img.header.width.val * img.header.height.val) ∧
        ∀ i : Nat, i < img.header.width.val * img.header.height.val →
          p[3 * i]? = img.data[i * img.header.channels.val]? ∧
          p[3 * i + 1]? = img.data[i * img.header.channels.val + 1]? ∧
          p[3 * i + 2]? = img.data[i * img.header.channels.val + 2]?) := by
  constructor
  · rintro ⟨hf, hc⟩
    exact to_ppm_spec img 1 (Or.inr (Or.inr ⟨hf, hc, rfl⟩)) hlen hmax
  · intro h
    have hb : (img.header.format = EBI_FORMAT_RGB ∧ 3 ≤ img.header.channels.val ∧ 0 = 0) ∨
        (img.header.format = EBI_FORMAT_RGBA ∧ img.header.channels.val = 4 ∧ 0 = 0) ∨
        (img.header.format = EBI_FORMAT_ARGB ∧ img.header.channels.val = 4 ∧ 0 = 1) := by
      rcases h with ⟨hf, hc⟩ | ⟨hf, hc⟩
      · exact Or.inr (Or.inl ⟨hf, hc, rfl⟩)
      · exact Or.inl ⟨hf, hc, rfl⟩
    exact to_ppm_spec img 0 hb hlen hmax

/-- C12 at the example buffer read as ARGB and as RGBA. -/
theorem C12_channel_selection_witness :
    (∃ p : List u8,
      to_ppm (image_of 2 1 4 EBI_FORMAT_ARGB 8 [10, 20, 30, 255, 40, 50, 60, 0]) =
        some (ppm_head
          (image_of 2 1 4 EBI_FORMAT_ARGB 8 [10, 20, 30, 255, 40, 50, 60, 0]).header ++ p) ∧
      p[3]? = some 50 ∧ p[4]? = some 60 ∧ p[5]? = some 0) ∧
    (∃ p : List u8,
      to_ppm example_image = some (ppm_head example_image.header ++ p) ∧
      p[3]? = some 40 ∧ p[4]? = some 50 ∧ p[5]? = some 60) := by
  constructor
  · obtain ⟨p, hp, _, hpix⟩ :=
      (C12_channel_selection (image_of 2 1 4 EBI_FORMAT_ARGB 8 [10, 20, 30, 255, 40, 50, 60, 0])
        (by decide) (by decide)).1 (by decide)
    have h1 := hpix 1 (by decide)
    exact ⟨p, hp, h1.1, h1.2.1, h1.2.2⟩
  · obtain ⟨p, hp, _, hpix⟩ :=
      (C12_channel_selection example_image (by decide) (by decide)).2 (Or.inl (by decide))
    have h1 := hpix 1 (by decide)
    exact ⟨p, hp, h1.1, h1.2.1, h1.2.2⟩

/-- C12 as stated fails in two ways: on a 32768x16385 ARGB image (a buffer of
`2^31 + 131072` bytes) the `int` offset of pixel `2^29` is `-2^31`, and on a
2x1 ARGB image whose buffer holds one pixel the bytes of pixel 1 do not
exist; in both cases no payload is defined. -/
theorem C12_counterexample :
    (32768 * 16385 * 4 ≤ (List.replicate 2147614720 (0 : u8)).length ∧
      to_ppm (image_of 32768 16385 4 EBI_FORMAT_ARGB 2147614720
        (List.replicate 2147614720 0)) = none) ∧
    to_ppm (image_of 2 1 4 EBI_FORMAT_ARGB 4 [255, 10, 20, 30]) = none := by
  refine ⟨⟨by rw [List.length_replicate], ?_⟩, by decide⟩
  exact to_ppm_overflow_none _ 1 536870912 (Or.inr (Or.inr ⟨by decide, by decide, rfl⟩))
    (by decide) (by decide) (by decide)

/-- C13 (complete pixmap output), amended. For every image whose format and
channel count match none of the three loops, or whose buffer holds at least
`width*height*channels` bytes with the offset `(width*height - 1)*channels`
of the last pixel at most `INT_MAX`, the byte stream written by `to_ppm` is
`"P6\n"`, the decimal width, one space, the decimal height, `"\n"`,
`"255\n"`, followed by the pixel payload and nothing else; the payload is
empty in the first case and has three bytes for each of the `width*height`
pixels otherwise. For the 2x1 RGBA image with buffer
10,20,30,255,40,50,60,0 the output is `"P6\n2 1\n255\n"` followed by
10,20,30,40,50,60. -/
theorem C13_pixmap_output (img : file)
    (hdefined :
      (¬ (img.header.format = EBI_FORMAT_RGB ∧ 3 ≤ img.header.channels.val) ∧
        ¬ (img.header.format = EBI_FORMAT_RGBA ∧ img.header.channels.val = 4) ∧
        ¬ (img.header.format = EBI_FORMAT_ARGB ∧ img.header.channels.val = 4)) ∨
      (img.header.width.val * img.header.height.val * img.header.channels.val ≤
          img.data.length ∧
        (img.header.width.val * img.header.height.val - 1) * img.header.channels.val ≤
          2147483647)) :
    (∃ p : List u8,
      to_ppm img =
        some ([80, 54, 10] ++ decimal img.header.width ++ [32] ++
          decimal img.header.height ++ [10] ++ [50, 53, 53, 10] ++ p) ∧
      ((¬ (img.header.format = EBI_FORMAT_RGB ∧ 3 ≤ img.header.channels.val) ∧
          ¬ (img.header.format = EBI_FORMAT_RGBA ∧ img.header.channels.val = 4) ∧
          ¬ (img.header.format = EBI_FORMAT_ARGB ∧ img.header.channels.val = 4)) →
        p = []) ∧
      (((img.header.format = EBI_FORMAT_RGB ∧ 3 ≤ img.header.channels.val) ∨
          (img.header.format = EBI_FORMAT_RGBA ∧ img.header.channels.val = 4) ∨
          (img.header.format = EBI_FORMAT_ARGB ∧ img.header.channels.val = 4)) →
        p.length = 3 * (img.header.width.val * img.header.height.val))) ∧
    decimal_value (decimal img.header.width) = img.header.width.val ∧
    decimal_value (decimal img.header.height) = img.header.height.val ∧
    to_ppm example_image =
      some [80, 54, 10, 50, 32, 49, 10, 50, 53, 53, 10, 10, 20, 30, 40, 50, 60] := by
  refine ⟨?_, decimal_value_decimal _, decimal_value_decimal _, by decide⟩
  by_cases h1 : img.header.format = EBI_FORMAT_RGB ∧ 3 ≤ img.header.channels.val
  · rcases hdefined with hun | ⟨hlen, hmax⟩
    · exact absurd h1 hun.1
    · obtain ⟨p, hp, hl, _⟩ := to_ppm_spec img 0 (Or.inl ⟨h1.1, h1.2, rfl⟩) hlen hmax
      exact ⟨p, hp, fun hun => absurd h1 hun.1, fun _ => hl⟩
  · by_cases h2 : img.header.format = EBI_FORMAT_RGBA ∧ img.header.channels.val = 4
    · rcases hdefined with hun | ⟨hlen, hmax⟩
      · exact absurd h2 hun.2.1
      · obtain ⟨p, hp, hl, _⟩ :=
          to_ppm_spec img 0 (Or.inr (Or.inl ⟨h2.1, h2.2, rfl⟩)) hlen hmax
        exact ⟨p, hp, fun hun => absurd h2 hun.2.1, fun _ => hl⟩
    · by_cases h3 : img.header.format = EBI_FORMAT_ARGB ∧ img.header.channels.val = 4
      · rcases hdefined with hun | ⟨hlen, hmax⟩
        · exact absurd h3 hun.2.2
        · obtain ⟨p, hp, hl, _⟩ :=
            to_ppm_spec img 1 (Or.inr (Or.inr ⟨h3.1, h3.2, rfl⟩)) hlen hmax
          exact ⟨p, hp, fun hun => absurd h3 hun.2.2, fun _ => hl⟩
      · refine ⟨[], ?_, fun _ => rfl, fun hm => ?_⟩
        · rw [to_ppm_unmatched img h1 h2 h3, List.append_nil]
          rfl
        · rcases hm with h | h | h
          · exact absurd h h1
          · exact absurd h h2
          · exact absurd h h3

/-- C13 at a 300x2 RGB image of 3 channels: the header lines are
`"P6\n300 2\n255\n"` and the payload has 1800 bytes. -/
theorem C13_pixmap_output_witness :
    ∃ p : List u8,
      to_ppm (image_of 300 2 3 EBI_FORMAT_RGB 1800 (List.replicate 1800 7)) =
        some ([80, 54, 10, 51, 48, 48, 32, 50, 10, 50, 53, 53, 10] ++ p) ∧
      p.length = 3 * (300 * 2) := by
  obtain ⟨⟨p, hp, _, hl⟩, _⟩ :=
    C13_pixmap_output (image_of 300 2 3 EBI_FORMAT_RGB 1800 (List.replicate 1800 7))
      (Or.inr ⟨by rw [show (image_of 300 2 3 EBI_FORMAT_RGB 1800
        (List.replicate 1800 7)).data.length = (List.replicate 1800 (7 : u8)).length from rfl,
        List.length_replicate]; decide, by decide⟩)
  exact ⟨p, hp, hl (Or.inl (by decide))⟩

/-- C13 as stated fails on a 2x1 RGBA image whose buffer holds only one
pixel (the bytes of pixel 1 are read outside the buffer), and on a
65535x10923 RGB image of 3 channels (a buffer of `2^31 + 32767` bytes), where
the `int` offset of pixel 715827883 is negative: the byte stream is not
defined. -/
theorem C13_counterexample :
    to_ppm (image_of 2 1 4 EBI_FORMAT_RGBA 4 [10, 20, 30, 255]) = none ∧
    65535 * 10923 * 3 ≤ (List.replicate 2147516415 (0 : u8)).length ∧
    to_ppm (image_of 65535 10923 3 EBI_FORMAT_RGB 2147516415
      (List.replicate 2147516415 0)) = none := by
  refine ⟨by decide, by rw [List.length_replicate], ?_⟩
  exact to_ppm_overflow_none _ 0 715827883 (Or.inl ⟨by decide, by decide, rfl⟩)
    (by decide) (by decide) (by decide)

/-! ## Frame of `write` -/

/-- C14 (frame of `write`). For every image and every destination: whenever
`write` has a result, the caller's image has its magic set to 'E','B','I',1
and its origin, width, height, channels, format, `data_size`, flags,
reserved bytes and buffer unchanged; when the destination does not open
`write` returns `file_not_found` with the magic stamped all the same; and the
only case without a defined result is an open destination together with a
buffer shorter than `data_size` (the payload write then reads outside the
buffer). -/
theorem C14_write_frame (can_open : Bool) (use : file) :
    (∀ r : write_result, write can_open use = some r →
      r.use.data = use.data ∧
      r.use.header.magic0 = 69 ∧ r.use.header.magic1 = 66 ∧
      r.use.header.magic2 = 73 ∧ r.use.header.magic3 = EBI_VERSION ∧
      r.use.header.origin = use.header.origin ∧
      r.use.header.width = use.header.width ∧
      r.use.header.height = use.header.height ∧
      r.use.header.channels = use.header.channels ∧
      r.use.header.format = use.header.format ∧
      r.use.header.data_size = use.header.data_size ∧
      r.use.header.flags = use.header.flags ∧
      r.use.header.reserved0 = use.header.reserved0 ∧
      r.use.header.reserved1 = use.header.reserved1 ∧
      r.use.header.reserved2 = use.header.reserved2 ∧
      r.use.header.reserved3 = use.header.reserved3 ∧
      r.use.header.reserved4 = use.header.reserved4 ∧
      r.use.header.reserved5 = use.header.reserved5 ∧
      r.use.header.reserved6 = use.header.reserved6 ∧
      r.use.header.reserved7 = use.header.reserved7) ∧
    (∃ r : write_result, write false use = some r ∧ r.code = error.file_not_found ∧
      r.use.data = use.data ∧
      r.use.header.magic0 = 69 ∧ r.use.header.magic1 = 66 ∧
      r.use.header.magic2 = 73 ∧ r.use.header.magic3 = EBI_VERSION) ∧
    (write can_open use = none ↔
      can_open = true ∧ use.data.length < use.header.data_size.val) := by
  have hsz : (stamp use.header).data_size = use.header.data_size := rfl
  refine ⟨fun r hr => ?_, ⟨_, rfl, rfl, rfl, rfl, rfl, rfl, rfl⟩, ?_⟩
  · have huse : r.use = { use with header := stamp use.header } := by
      unfold write at hr
      simp only at hr
      split_ifs at hr
      · rw [← Option.some.inj hr]
      · rw [← Option.some.inj hr]
    rw [huse]
    exact ⟨rfl, rfl, rfl, rfl, rfl, rfl, rfl, rfl, rfl, rfl, rfl, rfl, rfl, rfl, rfl, rfl,
      rfl, rfl, rfl, rfl⟩
  · unfold write
    simp only [hsz]
    cases can_open with
    | false => simp
    | true =>
      by_cases hl : use.data.length < use.header.data_size.val
      · simp [hl]
      · simp [hl]

/-! ## Row reversal of `vertical_flip` -/

theorem tdiv_two_toNat_of_le_one (h : Int) (hh : h ≤ 1) : (Int.tdiv h 2).toNat = 0 := by
  rcases le_or_lt h 0 with h1 | h1
  · obtain ⟨m, rfl⟩ : ∃ m : Nat, h = -(m : Int) := ⟨(-h).toNat, by omega⟩
    have e : Int.tdiv (-(m : Int)) 2 = -(((m / 2 : Nat)) : Int) := by
      rw [Int.neg_tdiv]
      rfl
    rw [e]
    omega
  · have : h = 1 := by omega
    subst this
    rfl

/-- With at most one row and a row size in `[0, INT_MAX]` the buffer is
returned as it is. -/
theorem vertical_flip_short (B : List u8) (w h c : Int) (n : Nat) (hn : w * c = (n : Int))
    (hrow : n ≤ 2147483647) (hh : h ≤ 1) : vertical_flip B w h c = some B := by
  unfold vertical_flip
  simp only [hn, wrap_natCast n hrow, tdiv_two_toNat_of_le_one h hh]
  rw [if_neg (by omega)]
  rfl

/-- The result of `vertical_flip` depends on `width` and `channels` through
their product only. -/
theorem vertical_flip_row_size (B : List u8) (w h c : Int) (n : Nat)
    (hn : w * c = (n : Int)) :
    vertical_flip B w h c = vertical_flip B (n : Int) h ((1 : Nat) : Int) := by
  unfold vertical_flip
  rw [hn, Nat.cast_one, mul_one]

/-- C15 (row reversal of `vertical_flip`), amended. For every buffer `B` with
`width*height*channels` at most the length of `B`, and with the row size
`width*channels` in `[0, INT_MAX]` and the offset of the last row
`(height-1)*width*channels` at most `INT_MAX`: `vertical_flip` returns a
buffer of the same length in which byte `y*width*channels + k` is byte
`(height-1-y)*width*channels + k` of `B` for every row `y` in `[0, height)`
and every `k` in `[0, width*channels)`; for odd height the middle row is
unchanged, for `height <= 1` the buffer is unchanged, and every byte at
index `>= width*height*channels` is unchanged. -/
theorem C15_row_reversal (B : List u8) (width height channels : Int)
    (h0 : 0 ≤ width * channels) (hrow : width * channels ≤ INT_MAX)
    (hoff : (height - 1) * (width * channels) ≤ INT_MAX)
    (hlen : width * height * channels ≤ B.length) :
    ∃ d : List u8, vertical_flip B width height channels = some d ∧
      d.length = B.length ∧
      (∀ y k : Nat, (y : Int) < height → (k : Int) < width * channels →
        d[y * (width * channels).toNat + k]? =
          B[(height.toNat - 1 - y) * (width * channels).toNat + k]?) ∧
      (∀ m k : Nat, height = 2 * (m : Int) + 1 → (k : Int) < width * channels →
        d[m * (width * channels).toNat + k]? = B[m * (width * channels).toNat + k]?) ∧
      (height ≤ 1 → d = B) ∧
      (∀ i : Nat, width * height * channels ≤ (i : Int) → d[i]? = B[i]?) := by
  obtain ⟨n, hn⟩ : ∃ n : Nat, width * channels = (n : Int) :=
    ⟨(width * channels).toNat, (Int.toNat_of_nonneg h0).symm⟩
  have hprod : width * height * channels = (n : Int) * height := by
    rw [← hn]
    ring
  rw [hprod] at hlen
  simp only [hprod, hn, Int.toNat_ofNat]
  rw [hn] at hrow hoff
  have hrowN : n ≤ 2147483647 := by
    have h : (n : Int) ≤ 2147483647 := hrow
    exact_mod_cast h
  clear h0 hrow hprod
  rcases lt_or_le height 0 with hneg | hpos
  · refine ⟨B, vertical_flip_short B width height channels n hn hrowN (by omega), rfl,
      fun y _ hy _ => absurd hy (by omega), fun m _ hm _ => absurd hm (by omega),
      fun _ => rfl, fun _ _ => rfl⟩
  · lift height to ℕ using hpos with H
    have hlenN : n * H * 1 ≤ B.length := by
      rw [Nat.mul_one]
      exact_mod_cast hlen
    have hoffN : (H - 1) * (n * 1) ≤ 2147483647 := by
      rw [Nat.mul_one]
      rcases Nat.eq_zero_or_pos H with hz | hp
      · subst hz
        simp
      · have h : (((H - 1) * n : Nat) : Int) ≤ 2147483647 := by
          rw [Nat.cast_mul, Nat.cast_sub hp, Nat.cast_one]
          exact hoff
        exact_mod_cast h
    obtain ⟨d, hrun, hl, hrows, htail⟩ :=
      vertical_flip_rows B n H 1 hlenN (by rw [Nat.mul_one]; exact hrowN) hoffN
    rw [Nat.mul_one] at hrows htail
    rw [← vertical_flip_row_size B width (H : Int) channels n hn] at hrun
    clear hoff hlen hoffN hlenN
    refine ⟨d, hrun, hl, ?_, ?_, ?_, ?_⟩
    · intro y k hy hk
      exact hrows y k (by omega) (by omega)
    · intro m k hm hk
      have hH : H = 2 * m + 1 := by omega
      have hmid : H - 1 - m = m := by omega
      have := hrows m k (by omega) (by omega)
      rw [hmid] at this
      exact this
    · intro hle
      have hB := vertical_flip_short B width (H : Int) channels n hn hrowN hle
      rw [hrun] at hB
      exact Option.some.inj hB
    · intro i hi
      have hi2 : n * H ≤ i := by exact_mod_cast hi
      exact htail i (by rw [Nat.mul_comm]; exact hi2)

/-- C15 on a buffer of three rows of four bytes and one byte more. -/
theorem C15_row_reversal_witness :
    ∃ d : List u8,
      vertical_flip [1, 2, 3, 4, 5, 6, 7, 8, 9, 10, 11, 12, 13] 2 3 2 = some d ∧
      d.length = 13 ∧ d[0 * 4 + 1]? = some 10 ∧ d[1 * 4 + 1]? = some 6 ∧
      d[12]? = some 13 := by
  obtain ⟨d, hd, hl, hrows, hmid, _, htail⟩ :=
    C15_row_reversal [1, 2, 3, 4, 5, 6, 7, 8, 9, 10, 11, 12, 13] 2 3 2
      (by decide) (by decide) (by decide) (by decide)
  exact ⟨d, hd, hl, hrows 0 1 (by decide) (by decide), hmid 1 1 (by decide) (by decide),
    htail 12 (by decide)⟩

/-- C15 as stated fails in two ways. With `width = -1`, `height = 1`,
`channels = 1` the product `width*height*channels` is below the length of
any buffer, but the row size is `-1` and the temporary row cannot be
allocated. With `width = 2^30`, `height = 0`, `channels = 2` on the empty
buffer the `int` row size is `-2^31`, with the same effect. -/
theorem C15_counterexample :
    ((-1 * 1 * 1 : Int) ≤ (([1, 2] : List u8).length : Int) ∧
      vertical_flip [1, 2] (-1) 1 1 = none) ∧
    ((1073741824 * 0 * 2 : Int) ≤ (([] : List u8).length : Int) ∧
      vertical_flip [] 1073741824 0 2 = none) := by
  decide

/-! ## Unsupported inputs -/

/-- C16 (unsupported channel count in `fill_color`). For every buffer, width,
height and colour and every `channels` other than 3 and 4, `fill_color`
returns the buffer unchanged. -/
theorem C16_fill_unsupported (data : List u8) (width height channels : Int)
    (r g b a : u8) (h3 : channels ≠ 3) (h4 : channels ≠ 4) :
    fill_color data width height channels r g b a = some data := by
  unfold fill_color
  rw [if_neg h3, if_neg h4]

/-- C16 with 2 channels and with 5 channels. -/
theorem C16_fill_unsupported_witness :
    fill_color [9, 8, 7, 6, 5] 2 1 2 1 2 3 4 = some [9, 8, 7, 6, 5] ∧
    fill_color [9, 8, 7, 6, 5] 1 1 5 1 2 3 4 = some [9, 8, 7, 6, 5] :=
  ⟨C16_fill_unsupported [9, 8, 7, 6, 5] 2 1 2 1 2 3 4 (by decide) (by decide),
   C16_fill_unsupported [9, 8, 7, 6, 5] 1 1 5 1 2 3 4 (by decide) (by decide)⟩

/-- C17 (unmatched format and channel count in `to_ppm`). For every image
whose format and channel count are none of RGB with at least 3 channels,
RGBA with 4 channels and ARGB with 4 channels, `to_ppm` writes the three
header lines and no payload byte, whatever the width, the height and the
buffer are. -/
theorem C17_unmatched_no_payload (img : file)
    (h1 : ¬ (img.header.format = EBI_FORMAT_RGB ∧ 3 ≤ img.header.channels.val))
    (h2 : ¬ (img.header.format = EBI_FORMAT_RGBA ∧ img.header.channels.val = 4))
    (h3 : ¬ (img.header.format = EBI_FORMAT_ARGB ∧ img.header.channels.val = 4)) :
    to_ppm img =
      some ([80, 54, 10] ++ decimal img.header.width ++ [32] ++ decimal img.header.height ++
        [10] ++ [50, 53, 53, 10]) :=
  to_ppm_unmatched img h1 h2 h3

/-- C17 at RGB with 2 channels, RGBA with 3 channels, ARGB with 3 channels
and the format byte 7, each on a 2x1 image with an empty buffer. -/
theorem C17_unmatched_no_payload_witness :
    to_ppm (image_of 2 1 2 EBI_FORMAT_RGB 0 []) =
      some [80, 54, 10, 50, 32, 49, 10, 50, 53, 53, 10] ∧
    to_ppm (image_of 2 1 3 EBI_FORMAT_RGBA 0 []) =
      some [80, 54, 10, 50, 32, 49, 10, 50, 53, 53, 10] ∧
    to_ppm (image_of 2 1 3 EBI_FORMAT_ARGB 0 []) =
      some [80, 54, 10, 50, 32, 49, 10, 50, 53, 53, 10] ∧
    to_ppm (image_of 2 1 4 7 0 []) =
      some [80, 54, 10, 50, 32, 49, 10, 50, 53, 53, 10] :=
  ⟨C17_unmatched_no_payload (image_of 2 1 2 EBI_FORMAT_RGB 0 [])
      (by decide) (by decide) (by decide),
   C17_unmatched_no_payload (image_of 2 1 3 EBI_FORMAT_RGBA 0 [])
      (by decide) (by decide) (by decide),
   C17_unmatched_no_payload (image_of 2 1 3 EBI_FORMAT_ARGB 0 [])
      (by decide) (by decide) (by decide),
   C17_unmatched_no_payload (image_of 2 1 4 7 0 []) (by decide) (by decide) (by decide)⟩

/-! ## Canonical re-encoding -/

theorem byte_of_u16_of_0 (b0 b1 : u8) : byte_of (u16_of b0 b1).val 0 = b0 := by
  apply Fin.ext
  have := b0.isLt
  simp only [byte_of, u16_of]
  omega

theorem byte_of_u16_of_1 (b0 b1 : u8) : byte_of (u16_of b0 b1).val 1 = b1 := by
  apply Fin.ext
  have := b0.isLt
  have := b1.isLt
  simp only [byte_of, u16_of]
  omega

theorem byte_of_u32_of_0 (b0 b1 b2 b3 : u8) : byte_of (u32_of b0 b1 b2 b3).val 0 = b0 := by
  apply Fin.ext
  have := b0.isLt
  simp only [byte_of, u32_of]
  omega

theorem byte_of_u32_of_1 (b0 b1 b2 b3 : u8) : byte_of (u32_of b0 b1 b2 b3).val 1 = b1 := by
  apply Fin.ext
  have := b0.isLt
  have := b1.isLt
  simp only [byte_of, u32_of]
  omega

theorem byte_of_u32_of_2 (b0 b1 b2 b3 : u8) : byte_of (u32_of b0 b1 b2 b3).val 2 = b2 := by
  apply Fin.ext
  have := b0.isLt
  have := b1.isLt
  have := b2.isLt
  simp only [byte_of, u32_of]
  omega

theorem byte_of_u32_of_3 (b0 b1 b2 b3 : u8) : byte_of (u32_of b0 b1 b2 b3).val 3 = b3 := by
  apply Fin.ext
  have := b0.isLt
  have := b1.isLt
  have := b2.isLt
  have := b3.isLt
  simp only [byte_of, u32_of]
  omega

/-- Encoding the header decoded from 25 bytes gives the 25 bytes back. -/
theorem header_bytes_header_of_bytes (b : List u8) (h : b.length = 25) :
    header_bytes (header_of_bytes b) = b := by
  match b, h with
  | [a0, a1, a2, a3, a4, a5, a6, a7, a8, a9, a10, a11, a12, a13, a14, a15, a16, a17, a18, a19, a20, a21, a22, a23, a24], _ =>
    simp only [header_bytes, header_of_bytes, List.getD_cons_zero, List.getD_cons_succ,
      byte_of_u16_of_0, byte_of_u16_of_1, byte_of_u32_of_0, byte_of_u32_of_1,
      byte_of_u32_of_2, byte_of_u32_of_3]

/-- Stamping a header whose magic is already 'E','B','I',1 changes nothing. -/
theorem stamp_of_magic (hdr : header) (h0 : hdr.magic0 = 69) (h1 : hdr.magic1 = 66)
    (h2 : hdr.magic2 = 73) (h3 : hdr.magic3 = EBI_VERSION) : stamp hdr = hdr := by
  cases hdr
  simp only at h0 h1 h2 h3
  subst h0 h1 h2 h3
  rfl

/-- The image `read` returns on a file it accepts. -/
theorem read_ok_eq (F : List u8) (result : file) (fresh : List u8)
    (h25 : 25 ≤ F.length) (hm : F.take 4 = [69, 66, 73, 1])
    (hz : (header_of_bytes (F.take 25)).data_size ≠ 0)
    (hl : 25 + (header_of_bytes (F.take 25)).data_size.val ≤ F.length) :
    read (some F) result fresh =
      (error.ok,
        { header := header_of_bytes (F.take 25),
          data := (F.drop 25).take (header_of_bytes (F.take 25)).data_size.val }) := by
  rw [read_some, if_neg (by omega), if_neg (by simp [hm]), if_neg hz, if_neg (by omega)]

/-- C18 (re-encoding is canonical). If `read` accepts a file `F` and returns
the image `I`, then `write` of `I` leaves `I` as it is and produces exactly
the first `25 + data_size` bytes of `F`; and `read` of any file that agrees
with `F` on its first `25 + data_size` bytes returns `ok` with the same
image `I`, so the bytes of `F` after offset `25 + data_size` are ignored. -/
theorem C18_canonical_reencoding (F : List u8) (result : file) (fresh : List u8)
    (hok : (read (some F) result fresh).1 = error.ok) :
    write true (read (some F) result fresh).2 =
      some { code := error.ok, use := (read (some F) result fresh).2,
             out := some (F.take (25 + (read (some F) result fresh).2.header.data_size.val)) } ∧
    ∀ (G : List u8) (result2 : file) (fresh2 : List u8),
      G.take (25 + (read (some F) result fresh).2.header.data_size.val) =
        F.take (25 + (read (some F) result fresh).2.header.data_size.val) →
      read (some G) result2 fresh2 = (error.ok, (read (some F) result fresh).2) := by
  obtain ⟨h25, hm, hz, hl⟩ := (read_ok_iff F result fresh).mp hok
  rw [read_ok_eq F result fresh h25 hm hz hl]
  simp only
  generalize hds : (header_of_bytes (F.take 25)).data_size.val = ds at hl ⊢
  have hmag := (not_congr (magic_test_iff F h25)).mpr (not_not.mpr hm)
  simp only [not_or, not_not] at hmag
  have hstamp : stamp (header_of_bytes (F.take 25)) = header_of_bytes (F.take 25) :=
    stamp_of_magic _ hmag.1 hmag.2.1 hmag.2.2.1 hmag.2.2.2
  have hplen : ((F.drop 25).take ds).length = ds := by
    simp only [List.length_take, List.length_drop]
    omega
  have henc : header_bytes (header_of_bytes (F.take 25)) = F.take 25 :=
    header_bytes_header_of_bytes _ (by simp only [List.length_take]; omega)
  constructor
  · unfold write
    simp only [hstamp, hds, hplen, lt_irrefl, if_false, Bool.not_true, Bool.false_eq_true,
      henc]
    rw [List.take_take, Nat.min_self, ← List.take_add]
  · intro G result2 fresh2 hG
    have hFlen : (F.take (25 + ds)).length = 25 + ds := by
      simp only [List.length_take]
      omega
    have hGlen : 25 + ds ≤ G.length := by
      have h : (G.take (25 + ds)).length = 25 + ds := by rw [hG, hFlen]
      simp only [List.length_take] at h
      omega
    have hG25 : G.take 25 = F.take 25 := by
      have h := congrArg (List.take 25) hG
      rw [List.take_take, List.take_take, Nat.min_eq_left (by omega)] at h
      exact h
    have hG4 : G.take 4 = F.take 4 := by
      have h := congrArg (List.take 4) hG
      rw [List.take_take, List.take_take, Nat.min_eq_left (by omega)] at h
      exact h
    have hGpay : (G.drop 25).take ds = (F.drop 25).take ds := by
      have h := hG
      rw [List.take_add, List.take_add, hG25] at h
      exact List.append_cancel_left h
    have hdsG : (header_of_bytes (G.take 25)).data_size.val = ds := by rw [hG25, hds]
    rw [read_ok_eq G result2 fresh2 (by omega) (by rw [hG4, hm]) (by rw [hG25]; exact hz)
      (by rw [hdsG]; exact hGlen), hG25, hds, hGpay]

/-- C18 at the example file followed by two more bytes: the image read from
it is written back as the example file, and the example file alone decodes
to the same image. -/
theorem C18_canonical_reencoding_witness :
    write true (read (some (example_file ++ [7, 7])) blank_image []).2 =
      some { code := error.ok, use := (read (some (example_file ++ [7, 7])) blank_image []).2,
             out := some example_file } ∧
    read (some example_file) blank_image [] =
      (error.ok, (read (some (example_file ++ [7, 7])) blank_image []).2) :=
  ⟨(C18_canonical_reencoding (example_file ++ [7, 7]) blank_image [] (by decide)).1,
   (C18_canonical_reencoding (example_file ++ [7, 7]) blank_image [] (by decide)).2
     example_file blank_image [] (by decide)⟩

/-! ## Bounds in `to_ppm` -/

/-- C19 (in-bounds reads of `to_ppm`), amended. For every image whose buffer
has at least `width*height*channels` bytes, every buffer index `to_ppm` reads
(`i*c .. i*c+2` for RGB with `c >= 3` and RGBA with `c == 4`,
`i*c+1 .. i*c+3` for ARGB with `c == 4`, `i` in `[0, width*height)`) is
smaller than `width*height*channels`, hence inside the buffer; and when
moreover the offset `(width*height - 1)*channels` of the last pixel is at
most `INT_MAX`, no read is outside the buffer: `to_ppm` has a defined
result. -/
theorem C19_in_bounds_reads (img : file)
    (hlen : img.header.width.val * img.header.height.val * img.header.channels.val ≤
      img.data.length) :
    (∀ i : Nat, i < img.header.width.val * img.header.height.val →
      ((img.header.format = EBI_FORMAT_RGB ∧ 3 ≤ img.header.channels.val) ∨
          (img.header.format = EBI_FORMAT_RGBA ∧ img.header.channels.val = 4) →
        i * img.header.channels.val + 2 <
          img.header.width.val * img.header.height.val * img.header.channels.val ∧
        i * img.header.channels.val + 2 < img.data.length) ∧
      (img.header.format = EBI_FORMAT_ARGB ∧ img.header.channels.val = 4 →
        i * img.header.channels.val + 3 <
          img.header.width.val * img.header.height.val * img.header.channels.val ∧
        i * img.header.channels.val + 3 < img.data.length)) ∧
    ((img.header.width.val * img.header.height.val - 1) * img.header.channels.val ≤
        2147483647 →
      ∃ out : List u8, to_ppm img = some out) := by
  constructor
  · intro i hi
    constructor
    · intro h
      have hc : 0 + 3 ≤ img.header.channels.val := by
        rcases h with ⟨_, hc⟩ | ⟨_, hc⟩ <;> omega
      have hb := (pixel_bounds _ _ 0 i hi hc).2.1
      rw [Nat.add_zero] at hb
      exact ⟨hb, lt_of_lt_of_le hb hlen⟩
    · intro h
      have hc : 1 + 3 ≤ img.header.channels.val := by omega
      have hb := (pixel_bounds _ _ 1 i hi hc).2.1
      exact ⟨hb, lt_of_lt_of_le hb hlen⟩
  · intro hmax
    by_cases h1 : img.header.format = EBI_FORMAT_RGB ∧ 3 ≤ img.header.channels.val
    · obtain ⟨p, hp, _⟩ := to_ppm_spec img 0 (Or.inl ⟨h1.1, h1.2, rfl⟩) hlen hmax
      exact ⟨_, hp⟩
    · by_cases h2 : img.header.format = EBI_FORMAT_RGBA ∧ img.header.channels.val = 4
      · obtain ⟨p, hp, _⟩ := to_ppm_spec img 0 (Or.inr (Or.inl ⟨h2.1, h2.2, rfl⟩)) hlen hmax
        exact ⟨_, hp⟩
      · by_cases h3 : img.header.format = EBI_FORMAT_ARGB ∧ img.header.channels.val = 4
        · obtain ⟨p, hp, _⟩ :=
            to_ppm_spec img 1 (Or.inr (Or.inr ⟨h3.1, h3.2, rfl⟩)) hlen hmax
          exact ⟨_, hp⟩
        · exact ⟨_, to_ppm_unmatched img h1 h2 h3⟩

/-- C19 at the example image: the last byte read for pixel 1 is byte 6 of 8,
and the export has a defined result. -/
theorem C19_in_bounds_reads_witness :
    (1 * 4 + 2 < 2 * 1 * 4 ∧ 1 * 4 + 2 < example_image.data.length) ∧
    (∃ out : List u8, to_ppm example_image = some out) := by
  obtain ⟨hidx, hdef⟩ := C19_in_bounds_reads example_image (by decide)
  exact ⟨(hidx 1 (by decide)).1 (Or.inr (by decide)), hdef (by decide)⟩

/-- C19 as stated fails on a 65535x8193 RGBA image whose buffer holds exactly
`width*height*channels = 2147713020` bytes: the `int` offset `i * c` of pixel
`i = 2^29` is `-2^31`, the read is outside the buffer and the export has no
defined result. -/
theorem C19_counterexample :
    65535 * 8193 * 4 ≤ (List.replicate 2147713020 (0 : u8)).length ∧
    to_ppm (image_of 65535 8193 4 EBI_FORMAT_RGBA 2147713020
      (List.replicate 2147713020 0)) = none := by
  refine ⟨by rw [List.length_replicate], ?_⟩
  exact to_ppm_overflow_none _ 0 536870912 (Or.inr (Or.inl ⟨by decide, by decide, rfl⟩))
    (by decide) (by decide) (by decide)

/-- C20 (loop bound without overflow in `to_ppm`). For every header (width
and height are 16-bit, so at most 65535) with at least 3 channels and
`data_size == width*height*channels`: the product `width*height` is at most
`INT_MAX` and the loop bound `w * h` computed in `int` is that product; and
if moreover `data_size` is at most `INT_MAX`, then for every `i` in
`[0, width*height)` the offset `i * c` and the index `i * c + 3` computed in
`int` are the exact values. -/
theorem C20_loop_bound (hdr : header) (hc : 3 ≤ hdr.channels.val)
    (hds : hdr.data_size.val = hdr.width.val * hdr.height.val * hdr.channels.val) :
    hdr.width.val ≤ 65535 ∧ hdr.height.val ≤ 65535 ∧
    hdr.width.val * hdr.height.val ≤ 2147483647 ∧
    wrap ((hdr.width.val : Int) * (hdr.height.val : Int)) =
      ((hdr.width.val * hdr.height.val : Nat) : Int) ∧
    (hdr.data_size.val ≤ 2147483647 →
      ∀ i : Nat, i < hdr.width.val * hdr.height.val →
        wrap ((i : Int) * (hdr.channels.val : Int)) = ((i * hdr.channels.val : Nat) : Int) ∧
        wrap (wrap ((i : Int) * (hdr.channels.val : Int)) + 3) =
          ((i * hdr.channels.val + 3 : Nat) : Int)) := by
  have hw := hdr.width.isLt
  have hh := hdr.height.isLt
  have hd := hdr.data_size.isLt
  rw [hds] at hd
  generalize hdr.channels.val = c at hc hds hd ⊢
  generalize hN : hdr.width.val * hdr.height.val = N at hds hd ⊢
  have h3 : N * 3 ≤ N * c := Nat.mul_le_mul_left N hc
  have hNmax : N ≤ 2147483647 := by omega
  refine ⟨by omega, by omega, hNmax, ?_, ?_⟩
  · rw [← Nat.cast_mul, hN]
    exact wrap_natCast N hNmax
  · intro hsmall i hi
    rw [hds] at hsmall
    have hb := (pixel_bounds N c 0 i hi (by omega)).2.1
    have hi3 : i * c + 3 ≤ 2147483647 := by omega
    have e1 : wrap ((i : Int) * (c : Int)) = ((i * c : Nat) : Int) := by
      rw [← Nat.cast_mul]
      exact wrap_natCast _ (by omega)
    refine ⟨e1, ?_⟩
    rw [e1]
    have := wrap_natCast (i * c + 3) hi3
    rw [Nat.cast_add] at this
    rw [Nat.cast_add]
    exact this

/-- C20 at the header of the example image (2x1, 4 channels, 8 bytes). -/
theorem C20_loop_bound_witness :
    wrap (((2 : Nat) : Int) * ((1 : Nat) : Int)) = ((2 * 1 : Nat) : Int) ∧
    wrap (wrap (((1 : Nat) : Int) * ((4 : Nat) : Int)) + 3) = ((1 * 4 + 3 : Nat) : Int) := by
  obtain ⟨_, _, _, hbound, hidx⟩ := C20_loop_bound example_image.header (by decide) (by decide)
  exact ⟨hbound, (hidx (by decide) 1 (by decide)).2⟩

end ebi
